import Mathlib

set_option maxRecDepth 100000

/-!
Verification development for the generated-markup normalization engine of the
figmatocode backend (src/Services/ai_services.py and src/main.py).

The Python source works on strings through regular-expression substitution.
Every substitution used by the engine is of the simple scanning kind: the
engine walks the text left to right, tries a fixed pattern at each position,
replaces the match and resumes after it, or moves one character forward.  We
embed that behaviour with the `scanRw` / `scanFind` combinators below: a
`step` function decides whether a match starts at the current position and, if
so, returns the replacement (resp. collected item) together with the number of
consumed characters.  Word boundaries look one character back, so the scanners
thread the previously consumed character.

Strings are modelled as `String` (lists of characters); machine floats of the
source are modelled as exact rationals `ℚ`; the file system of the asset
writer is modelled as an explicit association list threaded through the
functions.
-/

namespace FigmaToCode

/-- Python `\s` on the ASCII range (space, tab, newline, vertical tab,
form feed, carriage return). -/
def pyWS (c : Char) : Bool :=
  c = ' ' || c = '\t' || c = '\n' || c = '\r' || c = '\x0b' || c = '\x0c'

/-- ASCII digit. -/
def isDigitC (c : Char) : Bool := '0' ≤ c && c ≤ '9'

/-- Python `\w` (regex word character) on the ASCII range. -/
def isWordC (c : Char) : Bool :=
  ('a' ≤ c && c ≤ 'z') || ('A' ≤ c && c ≤ 'Z') || isDigitC c || c = '_'

/-- Hexadecimal digit `[0-9a-fA-F]`. -/
def isHexC (c : Char) : Bool :=
  isDigitC c || ('a' ≤ c && c ≤ 'f') || ('A' ≤ c && c ≤ 'F')

/-- Lower-case letter or digit, the character class `[a-z0-9]`. -/
def isLowerAl (c : Char) : Bool :=
  ('a' ≤ c && c ≤ 'z') || isDigitC c

/-- Case-insensitive prefix test; the pattern is given lower-case. -/
def beginsCI : List Char → List Char → Bool
  | [], _ => true
  | _ :: _, [] => false
  | p :: ps, c :: cs => p = c.toLower && beginsCI ps cs

/-- Case-sensitive substring test. -/
def containsSub (pat : List Char) : List Char → Bool
  | [] => pat.isPrefixOf []
  | c :: cs => pat.isPrefixOf (c :: cs) || containsSub pat cs

/-- Case-insensitive substring test; the pattern is given lower-case. -/
def containsSubCI (pat : List Char) : List Char → Bool
  | [] => beginsCI pat []
  | c :: cs => beginsCI pat (c :: cs) || containsSubCI pat cs

/-- Split at the first occurrence of `pat`: returns the part before the
occurrence and the part after it. -/
def findSplit (pat : List Char) : List Char → Option (List Char × List Char)
  | [] => if pat.isPrefixOf ([] : List Char) then some ([], []) else none
  | c :: cs =>
    if pat.isPrefixOf (c :: cs) then some ([], (c :: cs).drop pat.length)
    else match findSplit pat cs with
      | some (b, a) => some (c :: b, a)
      | none => none

/-- Case-insensitive variant of `findSplit`; also returns the matched
characters in their original case. -/
def findSplitCI (pat : List Char) : List Char → Option (List Char × List Char × List Char)
  | [] => if beginsCI pat [] then some ([], [], []) else none
  | c :: cs =>
    if beginsCI pat (c :: cs) then
      some ([], (c :: cs).take pat.length, (c :: cs).drop pat.length)
    else match findSplitCI pat cs with
      | some (b, m, a) => some (c :: b, m, a)
      | none => none

/-- The last character of a list, with a default for the empty list. -/
def lastCharD (l : List Char) (d : Option Char) : Option Char :=
  match l.getLast? with
  | some c => some c
  | none => d

/-- Left-to-right, non-overlapping rewriting scanner: Python `re.sub` for
the scanning patterns used by the source.  `step prev l` decides whether a
match starts at the head of `l` (with `prev` the preceding original
character, for word boundaries) and returns the replacement together with
the number of characters consumed.  Every step consumes at least one
character, so the input length is a sufficient fuel; the fuel only makes
the recursion structural. -/
def scanRwAux (step : Option Char → List Char → Option (List Char × Nat)) :
    Nat → Option Char → List Char → List Char
  | 0, _, _ => []
  | _ + 1, _, [] => []
  | fuel + 1, prev, c :: cs =>
    match step prev (c :: cs) with
    | some (repl, k) =>
      let k' := max k 1
      repl ++ scanRwAux step fuel (lastCharD ((c :: cs).take k') prev) ((c :: cs).drop k')
    | none => c :: scanRwAux step fuel (some c) cs

def scanRw (step : Option Char → List Char → Option (List Char × Nat))
    (prev : Option Char) (l : List Char) : List Char :=
  scanRwAux step l.length prev l

/-- Left-to-right, non-overlapping collecting scanner: Python `re.findall`
for the scanning patterns used by the source. -/
def scanFindAux {α : Type} (step : Option Char → List Char → Option (α × Nat)) :
    Nat → Option Char → List Char → List α
  | 0, _, _ => []
  | _ + 1, _, [] => []
  | fuel + 1, prev, c :: cs =>
    match step prev (c :: cs) with
    | some (x, k) =>
      let k' := max k 1
      x :: scanFindAux step fuel (lastCharD ((c :: cs).take k') prev) ((c :: cs).drop k')
    | none => scanFindAux step fuel (some c) cs

def scanFind {α : Type} (step : Option Char → List Char → Option (α × Nat))
    (prev : Option Char) (l : List Char) : List α :=
  scanFindAux step l.length prev l

/-- Replace only the first match, Python `re.sub(..., count=1)`. -/
def subFirst (step : List Char → Option (List Char × Nat)) : List Char → List Char
  | [] => []
  | c :: cs =>
    match step (c :: cs) with
    | some (repl, k) => repl ++ (c :: cs).drop (max k 1)
    | none => c :: subFirst step cs

/-- Python `str.replace`: replace every occurrence, left to right,
non-overlapping. -/
def replaceAllL (pat repl : List Char) (l : List Char) : List Char :=
  scanRw (fun _ s => if pat.isPrefixOf s then some (repl, pat.length) else none) none l

/-- Maximal runs of characters satisfying `p` (the scaffold under Python
`str.split` and `re.findall` over a single character class). -/
def runsOfAux (p : Char → Bool) : List Char → List Char → List (List Char)
  | cur, [] => if cur.isEmpty then [] else [cur.reverse]
  | cur, c :: cs =>
    if p c then runsOfAux p (c :: cur) cs
    else if cur.isEmpty then runsOfAux p [] cs
    else cur.reverse :: runsOfAux p [] cs

def runsOf (p : Char → Bool) (l : List Char) : List (List Char) :=
  runsOfAux p [] l

/-- Python `str.split()` with no argument: split on whitespace runs. -/
def splitWSL (l : List Char) : List (List Char) :=
  runsOf (fun c => !pyWS c) l

/-- Join with a separator. -/
def joinSep (sep : List Char) : List (List Char) → List Char
  | [] => []
  | [w] => w
  | w :: w' :: ws => w ++ sep ++ joinSep sep (w' :: ws)

/-- Python `str.strip()`. -/
def stripL (l : List Char) : List Char :=
  ((l.dropWhile pyWS).reverse.dropWhile pyWS).reverse

/-- Python `str.rstrip(set)`. -/
def rstripOn (p : Char → Bool) (l : List Char) : List Char :=
  (l.reverse.dropWhile p).reverse

/-- Numeric value of a run of ASCII digits. -/
def digitsVal (ds : List Char) : Nat :=
  ds.foldl (fun a c => 10 * a + (c.toNat - 48)) 0

/-- Decimal digits of a natural number (own formatter, mirroring Python
`str` on a non-negative integer). -/
def natDigitsAux : Nat → Nat → List Char
  | 0, _ => []
  | fuel + 1, n =>
    if n < 10 then [Char.ofNat (48 + n)]
    else natDigitsAux fuel (n / 10) ++ [Char.ofNat (48 + n % 10)]

def natDigits (n : Nat) : List Char := natDigitsAux (n + 1) n

def natStr (n : Nat) : String := ⟨natDigits n⟩

/-- Python `str(int(x))` on an integer value. -/
def intStr (n : ℤ) : String :=
  (if n < 0 then "-" else "") ++ natStr n.natAbs

/-- Exact rational division, written through `Rat.divInt` so that the
kernel can evaluate it (`qDiv a b = a / b`, proved below). -/
def qDiv (a b : ℚ) : ℚ := Rat.divInt (a.num * b.den) (b.num * a.den)

/-- The fractional part `q - ⌊q⌋`, written through `Rat.divInt`. -/
def qFrac (q : ℚ) : ℚ := Rat.divInt (q.num - ⌊q⌋ * q.den) q.den

/-- `q * n` for a natural scale factor, written through `Rat.divInt`. -/
def qMulNat (q : ℚ) (n : Nat) : ℚ := Rat.divInt (q.num * n) q.den

/-- String-level helpers. -/
def containsStr (s : String) (pat : String) : Bool := containsSub pat.data s.data

def containsStrCI (s : String) (pat : String) : Bool := containsSubCI pat.data s.data

def containsCharS (s : String) (c : Char) : Bool := s.data.contains c

/-! ## Class-token rewriter (`_sanitize_html_output` inner helpers,
src/Services/ai_services.py lines 98-260) -/

/-- `VALID_SPACING_SCALE` (ai_services.py lines 98-102): the fixed default
spacing scale.  Note that the source defines this constant but never reads
it. -/
def VALID_SPACING_SCALE : List String :=
  ["0", "0.5", "1", "1.5", "2", "2.5", "3", "3.5", "4", "5", "6",
   "7", "8", "9", "10", "11", "12", "14", "16", "20", "24", "28",
   "32", "36", "40", "44", "48", "52", "56", "60", "64", "72", "80", "96"]

/-- Does `l` match the anchored number shape `\d+(?:-\d+)?(?:\.\d+)?`
completely?  (A dangling separator makes the whole match fail: the optional
group cannot take it and the anchor rejects it.) -/
def numShapeDashDot (l : List Char) : Bool :=
  let d1 := l.takeWhile isDigitC
  if d1.isEmpty then false
  else
    let r1 := l.drop d1.length
    let r2 : Option (List Char) :=
      match r1 with
      | '-' :: rest =>
        let d2 := rest.takeWhile isDigitC
        if d2.isEmpty then none else some (rest.drop d2.length)
      | _ => some r1
    match r2 with
    | none => false
    | some r2 =>
      match r2 with
      | '.' :: rest =>
        let d3 := rest.takeWhile isDigitC
        if d3.isEmpty then false else (rest.drop d3.length).isEmpty
      | r => r.isEmpty

/-- Capture of the anchored shape `(\d+(?:\.\d+)?)px` (the whole rest must
be the number followed by the literal `px`). -/
def capNumPx (l : List Char) : Option (List Char) :=
  let d1 := l.takeWhile isDigitC
  if d1.isEmpty then none
  else
    match l.drop d1.length with
    | '.' :: rest =>
      let d2 := rest.takeWhile isDigitC
      if d2.isEmpty then none
      else if rest.drop d2.length = ['p', 'x'] then some (d1 ++ '.' :: d2) else none
    | r => if r = ['p', 'x'] then some d1 else none

/-- `_normalize_dash_decimal` (lines 106-110): a value of the exact shape
`\d+-\d+` turns its dash into a decimal point. -/
def normalize_dash_decimal (v : List Char) : List Char :=
  let d1 := v.takeWhile isDigitC
  match v.drop d1.length with
  | '-' :: rest =>
    if !d1.isEmpty && !rest.isEmpty && rest.all isDigitC then d1 ++ '.' :: rest
    else v
  | _ => v

/-- Try the alternation heads in order: the first head `p` such that the
token starts with `p-` and the remainder is accepted by `cap` wins (regex
alternation followed by an anchored tail). -/
def matchHeadCap (pres : List String) (cap : List Char → Option (List Char))
    (l : List Char) : Option (String × List Char) :=
  pres.findSome? fun p =>
    if (p.data ++ ['-']).isPrefixOf l then (cap (l.drop (p.data.length + 1))).map (p, ·)
    else none

def capNumFull (l : List Char) : Option (List Char) :=
  if numShapeDashDot l then some l else none

/-- The spacing-family alternation `gap|p[trblxy]?|m[trblxy]?|space-[xy]`. -/
def spacingHeads : List String :=
  ["gap", "p", "pt", "pr", "pb", "pl", "px", "py",
   "m", "mt", "mr", "mb", "ml", "mx", "my", "space-x", "space-y"]

/-- `_replace_spacing_token` (lines 138-149): spacing tokens with a bare
numeric suffix become bracketed pixel values (the scale constant above is
not consulted). -/
def replace_spacing_token (defined : List String) (t : String) : String :=
  if defined.contains t then t
  else
    match matchHeadCap spacingHeads capNumFull t.data with
    | some (p, num) => p ++ "-[" ++ (⟨normalize_dash_decimal num⟩ : String) ++ "px]"
    | none => t

/-- `_replace_tracking_token` (lines 182-193): a bracketed tracking value is
flattened only when the flat name is already defined.  `re.match` anchors at
the start only, so a token whose prefix matches loses its tail on rewrite. -/
def replace_tracking_token (defined : List String) (t : String) : String :=
  if ("tracking-[".data).isPrefixOf t.data then
    let r := t.data.drop 10
    let sgn : List Char × List Char :=
      match r with
      | '+' :: rest => (['+'], rest)
      | '-' :: rest => (['-'], rest)
      | _ => ([], r)
    let run := sgn.2.takeWhile fun c => isDigitC c || c = '_' || c = '.'
    if !run.isEmpty && ("px]".data).isPrefixOf (sgn.2.drop run.length) then
      let neg := sgn.1 = ['-']
      let cleaned := run.map fun c => if c = '.' then '_' else c
      let candidate := "tracking-" ++ (if neg then "n" else "p") ++ (⟨cleaned⟩ : String)
      if defined.contains candidate then candidate else t
    else t
  else t

/-- `_fix_padding_margin_prefixes` (lines 151-155): `p-l-40` becomes
`pl-40`, likewise for margins. -/
def fix_padding_margin_prefixes (t : String) : String :=
  let fixOne : Char → List Char → List Char := fun hd l =>
    match l with
    | c :: '-' :: d :: '-' :: rest =>
      if c = hd && ("trblxy".data).contains d then c :: d :: '-' :: rest else l
    | _ => l
  ⟨fixOne 'm' (fixOne 'p' t.data)⟩

/-- The alternation of `_normalize_px_suffix` (lines 162-171), in source
order. -/
def pxHeads : List String :=
  ["gap", "space-x", "space-y",
   "p", "pt", "pr", "pb", "pl", "px", "py",
   "m", "mt", "mr", "mb", "ml", "mx", "my",
   "w", "h", "min-w", "max-w", "min-h", "max-h",
   "top", "right", "bottom", "left", "inset", "inset-x", "inset-y",
   "translate-x", "translate-y",
   "rounded", "rounded-t", "rounded-b", "rounded-l", "rounded-r",
   "rounded-tl", "rounded-tr", "rounded-bl", "rounded-br"]

/-- `_normalize_px_suffix` (lines 157-178): a literal `px` suffix outside
brackets becomes the bracketed form, with a leading minus kept outside. -/
def normalize_px_suffix (defined : List String) (t : String) : String :=
  if defined.contains t then t
  else
    let neg := t.data.head? = some '-'
    let core := if neg then t.data.drop 1 else t.data
    match matchHeadCap pxHeads capNumPx core with
    | some (p, num) =>
      let conv := p ++ "-[" ++ (⟨num⟩ : String) ++ "px]"
      if neg then "-" ++ conv else conv
    | none => t

/-- Character class `[a-zA-Z0-9\-]` of the custom-color name. -/
def isColorNameC (c : Char) : Bool :=
  ('a' ≤ c && c ≤ 'z') || ('A' ≤ c && c ≤ 'Z') || isDigitC c || c = '-'

/-- Strip a trailing `-dark`/`-light`/`-lighter`/`-medium` shade suffix
(the anchored `re.sub` of line 131). -/
def stripShade (name : List Char) : List Char :=
  if ("-dark".data).isSuffixOf name then name.take (name.length - 5)
  else if ("-light".data).isSuffixOf name then name.take (name.length - 6)
  else if ("-lighter".data).isSuffixOf name then name.take (name.length - 8)
  else if ("-medium".data).isSuffixOf name then name.take (name.length - 7)
  else name

/-- `_alias_custom_color` (lines 112-136): retarget an undefined custom
color token to a defined sibling by a gray/grey swap or by dropping a shade
suffix. -/
def alias_custom_color (defined : List String) (t : String) : String :=
  if defined.contains t then t
  else
    let kinds : List String := ["text", "bg", "border"]
    match kinds.findSome? (fun k =>
        if (k.data ++ "-custom-".data).isPrefixOf t.data then
          some (k, t.data.drop (k.data.length + 8))
        else none) with
    | none => t
    | some (k, name) =>
      if name.isEmpty || !name.all isColorNameC then t
      else
        let tryAlt : List Char → Option String := fun alt =>
          let cand := k ++ "-custom-" ++ (⟨alt⟩ : String)
          if defined.contains cand then some cand else none
        let grayStep : Option String :=
          if containsSub "gray".data name then
            tryAlt (replaceAllL "gray".data "grey".data name)
          else none
        match grayStep with
        | some c => c
        | none =>
          let greyStep : Option String :=
            if containsSub "grey".data name then
              tryAlt (replaceAllL "grey".data "gray".data name)
            else none
          match greyStep with
          | some c => c
          | none =>
            let base := stripShade name
            if base ≠ name then
              match tryAlt base with
              | some c => c
              | none => t
            else t

/-- `_normalize_text_leading_numeric` (lines 195-203). -/
def normalize_text_leading_numeric (defined : List String) (t : String) : String :=
  if defined.contains t then t
  else
    match matchHeadCap ["text", "leading"] capNumFull t.data with
    | some (p, num) => p ++ "-[" ++ (⟨normalize_dash_decimal num⟩ : String) ++ "px]"
    | none => t

/-- `_normalize_tracking_alias` (lines 205-215): alternate tracking
spellings (`neg-` marker, `n`/`p` letter, a stray sign) become the bracketed
pixel form. -/
def normalize_tracking_alias (defined : List String) (t : String) : String :=
  if defined.contains t then t
  else if ("tracking-".data).isPrefixOf t.data then
    let r0 := t.data.drop 9
    let s1 : Bool × List Char :=
      if ("neg-".data).isPrefixOf r0 then (true, r0.drop 4) else (false, r0)
    let s2 : Option Char × List Char :=
      match s1.2 with
      | 'n' :: rest => (some 'n', rest)
      | 'p' :: rest => (some 'p', rest)
      | _ => (none, s1.2)
    let s3 : Bool × List Char :=
      match s2.2 with
      | '-' :: rest => (true, rest)
      | _ => (false, s2.2)
    let d1 := s3.2.takeWhile isDigitC
    if d1.isEmpty then t
    else
      let rest4 := s3.2.drop d1.length
      let num : Option (List Char) :=
        if rest4.isEmpty then some d1
        else
          match rest4 with
          | c :: rest5 =>
            if c = '_' || c = '-' then
              let d2 := rest5.takeWhile isDigitC
              if !d2.isEmpty && (rest5.drop d2.length).isEmpty then some (d1 ++ c :: d2)
              else none
            else none
          | _ => none
      match num with
      | none => t
      | some num =>
        let neg := s1.1 || s3.1 || s2.1 = some 'n'
        let val := normalize_dash_decimal (num.map fun c => if c = '_' then '.' else c)
        "tracking-[" ++ (if neg then "-" else "") ++ (⟨val⟩ : String) ++ "px]"
  else t

/-- The alternation of `_normalize_numeric_token` (lines 224-230), in
source order. -/
def numericHeads : List String :=
  ["w", "h", "min-w", "max-w", "min-h", "max-h",
   "top", "right", "bottom", "left", "inset", "inset-x", "inset-y",
   "translate-x", "translate-y",
   "rounded", "rounded-t", "rounded-b", "rounded-l", "rounded-r",
   "rounded-tl", "rounded-tr", "rounded-bl", "rounded-br"]

/-- `_normalize_numeric_token` (lines 217-237). -/
def normalize_numeric_token (defined : List String) (t : String) : String :=
  if defined.contains t then t
  else
    let neg := t.data.head? = some '-'
    let core := if neg then t.data.drop 1 else t.data
    if core.contains '[' || core.contains '/' then t
    else
      match matchHeadCap numericHeads capNumFull core with
      | some (p, num) =>
        let conv := p ++ "-[" ++ (⟨normalize_dash_decimal num⟩ : String) ++ "px]"
        if neg then "-" ++ conv else conv
      | none => t

/-- The per-token rule chain of `_replace_class_attr` (lines 243-254). -/
def rewriteToken (defined : List String) (t : String) : String :=
  let t := (⟨replaceAllL "\\.".data ".".data t.data⟩ : String)
  let t := replace_tracking_token defined t
  let t := replace_spacing_token defined t
  let t := fix_padding_margin_prefixes t
  let t := normalize_px_suffix defined t
  let t := alias_custom_color defined t
  let t := normalize_text_leading_numeric defined t
  let t := normalize_tracking_alias defined t
  normalize_numeric_token defined t

/-- The post-chain compound-prefix fixes of lines 259-260. -/
def fixCompoundToken (t : String) : String :=
  if ("leading-line-height-".data).isPrefixOf t.data then
    "line-height-" ++ (⟨t.data.drop 20⟩ : String)
  else if ("tracking-letter-spacing-".data).isPrefixOf t.data then
    "letter-spacing-" ++ (⟨t.data.drop 24⟩ : String)
  else t

/-- `_replace_class_attr` (lines 239-261) applied to the contents of one
`class="..."` attribute. -/
def replace_class_attr (defined : List String) (content : List Char) : List Char :=
  let toks := (splitWSL content).map fun w => (⟨w⟩ : String)
  let toks := toks.filterMap fun t =>
    if t = "html" then none else some (rewriteToken defined t)
  let toks := toks.map fixCompoundToken
  "class=\"".data ++ joinSep [' '] (toks.map String.data) ++ ['"']

/-! ## Letter-spacing clamp (`_clamp_letter_spacing`, lines 78-96) -/

/-- Round to the nearest integer, ties to even (the rounding used by
Python's fixed-point float formatting). -/
def roundHalfEven (q : ℚ) : ℤ :=
  let f := ⌊q⌋
  let r := qFrac q
  if r < Rat.divInt 1 2 then f
  else if Rat.divInt 1 2 < r then f + 1
  else if f % 2 = 0 then f else f + 1

def pad3 (n : Nat) : List Char :=
  let d := natDigits n
  List.replicate (3 - d.length) '0' ++ d

/-- Python `f"{v:.3f}"` on the exact value (three decimals, half-even). -/
def fmtFixed3 (v : ℚ) : List Char :=
  let m := (roundHalfEven (qMulNat |v| 1000)).toNat
  (if v < 0 then ['-'] else []) ++ natDigits (m / 1000) ++ '.' :: pad3 (m % 1000)

/-- The clamp of `_clamp_letter_spacing`: values of magnitude at most 10
pass through, anything else is clamped into [-10, 10]. -/
def clampLetterSpacingValue (v : ℚ) : ℚ :=
  if |v| ≤ 10 then v else max (-10) (min 10 v)

/-- The formatting of `_clamp_letter_spacing`: whole values print as
integers, others as at most three decimals with trailing zeros (and a
trailing point) stripped. -/
def formatClamped (v : ℚ) : String :=
  if v.den = 1 then intStr v.num
  else ⟨rstripOn (· = '.') (rstripOn (· = '0') (fmtFixed3 v))⟩

/-- Parse the number shape `-?\d+(?:\.\d+)?` at the head of `l`, returning
its exact value and the number of characters consumed. -/
def parseDecPx (l : List Char) : Option (ℚ × Nat) :=
  let neg := l.head? = some '-'
  let r1 := if neg then l.drop 1 else l
  let d1 := r1.takeWhile isDigitC
  if d1.isEmpty then none
  else
    let signLen := if neg then 1 else 0
    let mkVal : List Char → ℚ := fun frac =>
      Rat.divInt
        ((if neg then (-1 : ℤ) else 1) *
          (digitsVal d1 * 10 ^ frac.length + digitsVal frac))
        (10 ^ frac.length)
    match r1.drop d1.length with
    | '.' :: rest =>
      let d2 := rest.takeWhile isDigitC
      if d2.isEmpty then none
      else some (mkVal d2, signLen + d1.length + 1 + d2.length)
    | _ => some (mkVal [], signLen + d1.length)

/-- The per-declaration substitution of lines 92-96: the scanner matches
`(letter-spacing:\s*)(-?\d+(?:\.\d+)?)px` and replaces the numeric literal
with the clamped, reformatted value. -/
def clampLSStep (_ : Option Char) (l : List Char) : Option (List Char × Nat) :=
  if ("letter-spacing:".data).isPrefixOf l then
    let after := l.drop 15
    let ws := after.takeWhile pyWS
    let r := after.drop ws.length
    match parseDecPx r with
    | some (v, numLen) =>
      if ("px".data).isPrefixOf (r.drop numLen) then
        some ("letter-spacing:".data ++ ws ++
                (formatClamped (clampLetterSpacingValue v)).data ++ "px".data,
              15 + ws.length + numLen + 2)
      else none
    | none => none
  else none

/-! ## Document-level scanners of `_sanitize_html_output` (lines 33-298) -/

/-- Line 45, `re.sub(r"<!--\s*[^<]*<", "<", html)`: a malformed comment
opener followed by a non-`<` run and a tag opener collapses to the tag
opener. -/
def commentRepairStep (_ : Option Char) (l : List Char) : Option (List Char × Nat) :=
  if ("<!--".data).isPrefixOf l then
    match findSplit ['<'] (l.drop 4) with
    | some (mid, _) => some (['<'], 4 + mid.length + 1)
    | none => none
  else none

/-- Line 47, `re.sub(r"<!--.*?-->", "", html)`: remaining comments are
removed up to the nearest closer. -/
def stripCommentsStep (_ : Option Char) (l : List Char) : Option (List Char × Nat) :=
  if ("<!--".data).isPrefixOf l then
    match findSplit "-->".data (l.drop 4) with
    | some (mid, _) => some ([], 4 + mid.length + 3)
    | none => none
  else none

/-- Line 50: a stray `html` token inside a bracketed value class is
dropped and the bracket closed. -/
def strayHtmlStep (_ : Option Char) (l : List Char) : Option (List Char × Nat) :=
  (["text", "leading", "tracking"] : List String).findSome? fun h =>
    if (h.data ++ "-[".data).isPrefixOf l then
      let r := l.drop (h.data.length + 2)
      let run := r.takeWhile fun c => isDigitC c || c = '.' || c = '-'
      if run.isEmpty then none
      else
        let r2 := r.drop run.length
        if ("px".data).isPrefixOf r2 then
          let ws := (r2.drop 2).takeWhile pyWS
          if ("html".data).isPrefixOf ((r2.drop 2).drop ws.length) then
            some (h.data ++ "-[".data ++ run ++ "px]".data,
                  h.data.length + 2 + run.length + 2 + ws.length + 4)
          else none
        else none
    else none

/-- Line 66: strip a stray leading `html` token in front of the doctype
(anchored at the start, case-insensitive). -/
def stripLeadHtmlOnce (l : List Char) : List Char :=
  let r := l.dropWhile pyWS
  if beginsCI "html".data r then
    let r2 := r.drop 4
    let ws2 := r2.takeWhile pyWS
    if !ws2.isEmpty && beginsCI "<!doctype html>".data (r2.drop ws2.length) then
      r2.drop ws2.length
    else l
  else l

/-- Does the attribute region contain `type=["']text/tailwindcss["']`
(case-insensitively, with independent quote characters)? -/
def twTypeLitAt (l : List Char) : Bool :=
  beginsCI "type=".data l &&
    match l.drop 5 with
    | q1 :: rest =>
      (q1 = '"' || q1 = '\x27') && beginsCI "text/tailwindcss".data rest &&
        (match rest.drop 16 with
         | q2 :: _ => q2 = '"' || q2 = '\x27'
         | [] => false)
    | [] => false

def containsTwType : List Char → Bool
  | [] => false
  | c :: cs => twTypeLitAt (c :: cs) || containsTwType cs

/-- Lines 69-74: remove `<style>` blocks that do not carry the
tailwindcss type attribute. -/
def removeNonTwStylesStep (_ : Option Char) (l : List Char) : Option (List Char × Nat) :=
  if beginsCI "<style".data l then
    match findSplit ['>'] (l.drop 6) with
    | none => none
    | some (attrs, afterGt) =>
      if containsTwType attrs then none
      else
        match findSplitCI "</style>".data afterGt with
        | some (mid, _, _) => some ([], 6 + attrs.length + 1 + mid.length + 8)
        | none => none
  else none

/-- Character class of a declared selector name,
`[a-zA-Z0-9_\\\-\[\]\.]`. -/
def isClassNameC (c : Char) : Bool :=
  isWordC c || c = '\\' || c = '-' || c = '[' || c = ']' || c = '.'

/-- One `.<name> {` selector occurrence inside a style block
(lines 59-62). -/
def classNameStep (_ : Option Char) (l : List Char) : Option (List Char × Nat) :=
  match l with
  | '.' :: rest =>
    let run := rest.takeWhile isClassNameC
    if run.isEmpty then none
    else
      let ws := (rest.drop run.length).takeWhile pyWS
      match (rest.drop run.length).drop ws.length with
      | '\x7b' :: _ => some (run, 1 + run.length + ws.length + 1)
      | _ => none
  | _ => none

/-- The content of one tailwindcss style block (the capture of the findall
on lines 54-58). -/
def twContentStep (_ : Option Char) (l : List Char) : Option (List Char × Nat) :=
  if beginsCI "<style".data l then
    match findSplit ['>'] (l.drop 6) with
    | none => none
    | some (attrs, afterGt) =>
      if containsTwType attrs then
        match findSplitCI "</style>".data afterGt with
        | some (mid, _, _) => some (mid, 6 + attrs.length + 1 + mid.length + 8)
        | none => none
      else none
  else none

/-- `_extract_defined_classes` (lines 52-63): the DefinedClassSet, with
both the escaped and the unescaped spelling of every declared name. -/
def extract_defined_classes (html : List Char) : List String :=
  (scanFind twContentStep none html).flatMap fun content =>
    (scanFind classNameStep none content).flatMap fun name =>
      [(⟨name⟩ : String), (⟨name.filter (· ≠ '\\')⟩ : String)]

/-- Line 263: rewrite the contents of every `class="..."` attribute. -/
def classAttrStep (defined : List String) (_ : Option Char) (l : List Char) :
    Option (List Char × Nat) :=
  if ("class=\"".data).isPrefixOf l then
    match findSplit ['"'] (l.drop 7) with
    | some (content, _) =>
      if content.isEmpty then none
      else some (replace_class_attr defined content, 7 + content.length + 1)
    | none => none
  else none

/-- Lines 266-275: rewrite bracketed tracking selectors to the flattened
spelling when it is defined (an unflattenable match is replaced by
itself). -/
def trackingSelStep (defined : List String) (_ : Option Char) (l : List Char) :
    Option (List Char × Nat) :=
  if (".tracking-[".data).isPrefixOf l then
    let r := l.drop 11
    let sgn : List Char × List Char :=
      match r with
      | '+' :: rest => (['+'], rest)
      | '-' :: rest => (['-'], rest)
      | _ => ([], r)
    let run := sgn.2.takeWhile fun c => isDigitC c || c = '_' || c = '.'
    if !run.isEmpty && ("px]".data).isPrefixOf (sgn.2.drop run.length) then
      let len := 11 + sgn.1.length + run.length + 3
      let neg := sgn.1 = ['-']
      let cleaned := run.map fun c => if c = '.' then '_' else c
      let candidate := "tracking-" ++ (if neg then "n" else "p") ++ (⟨cleaned⟩ : String)
      if defined.contains candidate then some ('.' :: candidate.data, len)
      else some (l.take len, len)
    else none
  else none

/-- Case-sensitive word-bounded occurrence (`\b...\b` for a pattern whose
first and last characters are word characters). -/
def hasWordSubAux (pat : List Char) : Option Char → List Char → Bool
  | _, [] => false
  | prev, c :: cs =>
    ((match prev with
      | none => true
      | some p => !isWordC p) &&
      pat.isPrefixOf (c :: cs) &&
      (match ((c :: cs).drop pat.length).head? with
       | none => true
       | some n => !isWordC n)) ||
    hasWordSubAux pat (some c) cs

def hasWordSub (pat l : List Char) : Bool := hasWordSubAux pat none l

/-- Case-insensitive variant (pattern given lower-case). -/
def hasWordSubCIAux (pat : List Char) : Option Char → List Char → Bool
  | _, [] => false
  | prev, c :: cs =>
    ((match prev with
      | none => true
      | some p => !isWordC p) &&
      beginsCI pat (c :: cs) &&
      (match ((c :: cs).drop pat.length).head? with
       | none => true
       | some n => !isWordC n)) ||
    hasWordSubCIAux pat (some c) cs

def hasWordSubCI (pat l : List Char) : Bool := hasWordSubCIAux pat none l

/-- Line 286: does the lookahead window contain a negative bracketed
positional offset? -/
def negOffsetIn (tail : List Char) : Bool :=
  (["top-[-", "left-[-", "right-[-", "bottom-[-",
    "-top-[", "-left-[", "-right-[", "-bottom-["] : List String).any fun p =>
    containsSub p.data tail

/-- Line 287, `re.sub(r"\boverflow-hidden\b", "", classes)`. -/
def removeOverflowHiddenWord (classes : List Char) : List Char :=
  scanRw (fun prev l =>
    if (match prev with
        | none => true
        | some p => !isWordC p) &&
        ("overflow-hidden".data).isPrefixOf l &&
        (match (l.drop 15).head? with
         | none => true
         | some n => !isWordC n) then
      some ([], 15)
    else none) none classes

/-- Line 288, `re.sub(r"\s{2,}", " ", classes)`. -/
def collapse2WS (l : List Char) : List Char :=
  scanRw (fun _ s =>
    match s with
    | c :: c2 :: _ =>
      if pyWS c && pyWS c2 then some ([' '], (s.takeWhile pyWS).length) else none
    | _ => none) none l

/-- `_relax_overflow_hidden` (lines 281-289): the per-match replacement. -/
def relaxClasses (classes tail : List Char) : List Char :=
  if containsSub "clip-true".data classes || containsSub "clip-content".data classes then
    classes
  else if hasWordSub "absolute".data tail && negOffsetIn tail then
    collapse2WS (stripL (removeOverflowHiddenWord classes))
  else classes

def relaxReplace (classes tail : List Char) : List Char :=
  "<div class=\"".data ++ relaxClasses classes tail ++ "\">".data ++ tail

/-- Lines 291-296: the scanner over clipping containers, with its bounded
8000-character lookahead, which is consumed by the match. -/
def relaxStep (_ : Option Char) (l : List Char) : Option (List Char × Nat) :=
  if beginsCI "<div class=\"".data l then
    match findSplit ['"'] (l.drop 12) with
    | some (classes, afterQ) =>
      if afterQ.head? = some '>' && hasWordSubCI "overflow-hidden".data classes then
        let tail := (afterQ.drop 1).take 8000
        some (relaxReplace classes tail, 12 + classes.length + 2 + tail.length)
      else none
    | none => none
  else none

/-- `_sanitize_html_output` (lines 33-298): the full sanitisation stage,
composed in source order. -/
def sanitize_html_output (html : String) : String :=
  if html.data.isEmpty then html
  else
    let s := scanRw commentRepairStep none html.data
    let s := scanRw stripCommentsStep none s
    let s := scanRw strayHtmlStep none s
    let s := stripLeadHtmlOnce s
    let s := scanRw removeNonTwStylesStep none s
    let s := scanRw clampLSStep none s
    let defined := extract_defined_classes s
    let s := scanRw (classAttrStep defined) none s
    let s := scanRw (trackingSelStep defined) none s
    let s := replaceAllL ".tracking-.tracking-".data ".tracking-".data s
    let s := scanRw relaxStep none s
    ⟨s⟩

/-! ## Color backfill (`_ensure_missing_color_utilities` and
`_hex_to_color`, lines 318-377) -/

def hexVal (c : Char) : Nat :=
  if isDigitC c then c.toNat - 48 else c.toNat - 87

def hexByte (c1 c2 : Char) : Nat := hexVal c1 * 16 + hexVal c2

/-- `_hex_to_color` (lines 340-352): decode a 3/6/8-digit hex payload; a
3-digit form doubles each digit, an 8-digit form becomes `rgba` with the
trailing byte as fractional alpha (the `rstrip` of the source acts on the
whole `rgba(...)` string). -/
def hex_to_color (hexs : String) : String :=
  let h := hexs.data.map Char.toLower
  let h := if h.length = 3 then h.flatMap fun c => [c, c] else h
  if h.length = 6 then "#" ++ (⟨h⟩ : String)
  else if h.length = 8 then
    let r := hexByte (h.getD 0 '0') (h.getD 1 '0')
    let g := hexByte (h.getD 2 '0') (h.getD 3 '0')
    let b := hexByte (h.getD 4 '0') (h.getD 5 '0')
    let a : ℚ := Rat.divInt (hexByte (h.getD 6 '0') (h.getD 7 '0')) 255
    let base := "rgba(" ++ natStr r ++ ", " ++ natStr g ++ ", " ++ natStr b ++ ", " ++
      (⟨fmtFixed3 a⟩ : String) ++ ")"
    ⟨rstripOn (· = '.') (rstripOn (· = '0') base.data)⟩
  else "#" ++ (⟨h⟩ : String)

/-- The findall of line 336, `\b(text|bg|border)-custom-([0-9a-fA-F]{3,8})\b`:
a hex run longer than eight characters can never end at a word boundary, so
only complete runs of three to eight hex digits match. -/
def colorTokenStep (prev : Option Char) (l : List Char) :
    Option ((String × String) × Nat) :=
  let bOk := match prev with
    | none => true
    | some p => !isWordC p
  if !bOk then none
  else
    (["text", "bg", "border"] : List String).findSome? fun k =>
      if (k.data ++ "-custom-".data).isPrefixOf l then
        let r := l.drop (k.data.length + 8)
        let run := r.takeWhile isHexC
        if 3 ≤ run.length && run.length ≤ 8 &&
            (match (r.drop run.length).head? with
             | none => true
             | some c => !isWordC c) then
          some ((k, (⟨run⟩ : String)), k.data.length + 8 + run.length)
        else none
      else none

def mkColorClassName (k h : String) : String := k ++ "-custom-" ++ h

/-- Line 362: the CSS property backing each kind of color utility. -/
def colorProp (k : String) : String :=
  if k = "text" then "color"
  else if k = "bg" then "background-color"
  else "border-color"

/-- Line 363: one synthesized rule. -/
def mkColorRule (k h : String) : String :=
  "  ." ++ mkColorClassName k h ++ " \x7b " ++ colorProp k ++ ": " ++ hex_to_color h ++ "; \x7d"

/-- Lines 354-363: one rule per referenced class that is neither defined
nor already seen. -/
def colorRulesAux (defined : List String) :
    List (String × String) → List String → List String → List String
  | [], _, acc => acc.reverse
  | (k, h) :: ms, seen, acc =>
    let cn := mkColorClassName k h
    if defined.contains cn || seen.contains cn then colorRulesAux defined ms seen acc
    else colorRulesAux defined ms (cn :: seen) (mkColorRule k h :: acc)

def colorRules (defined : List String) (ms : List (String × String)) : List String :=
  colorRulesAux defined ms [] []

/-- Insert a style block before the first (case-insensitive) `</head>`, or
append it after a newline when the document has no head (lines 375-377). -/
def insertBeforeHead (block : String) (html : List Char) : List Char :=
  if containsSubCI "</head>".data html then
    match findSplitCI "</head>".data html with
    | some (before, matched, after) => before ++ block.data ++ '\n' :: (matched ++ after)
    | none => html ++ '\n' :: block.data
  else html ++ '\n' :: block.data

/-- `_ensure_missing_color_utilities` (lines 318-377). -/
def ensure_missing_color_utilities (html : String) : String :=
  if html.data.isEmpty then html
  else
    let defined := extract_defined_classes html.data
    let ms := scanFind colorTokenStep none html.data
    if ms.isEmpty then html
    else
      let rules := colorRules defined ms
      if rules.isEmpty then html
      else
        let block := "<style type=\"text/tailwindcss\">\n@layer utilities \x7b\n" ++
          (⟨joinSep ['\n'] (rules.map String.data)⟩ : String) ++ "\n\x7d\n</style>"
        ⟨insertBeforeHead block html.data⟩

/-! ## `_fix_apply_font` (lines 559-570) -/

def applyFontQuoteStep (q : Char) (_ : Option Char) (l : List Char) :
    Option (List Char × Nat) :=
  if ("@apply".data).isPrefixOf l then
    let ws := (l.drop 6).takeWhile pyWS
    if ws.isEmpty then none
    else
      let r := (l.drop 6).drop ws.length
      if ("font-[".data ++ [q]).isPrefixOf r then
        match findSplit [q] (r.drop 7) with
        | some (content, after) =>
          if !content.isEmpty && ("];".data).isPrefixOf after then
            some ("font-family: \x27".data ++
                    content.map (fun c => if c = '_' then ' ' else c) ++
                    "\x27, sans-serif;".data,
                  6 + ws.length + 7 + content.length + 1 + 2)
          else none
        | none => none
      else none
  else none

def applyFontSlugStep (_ : Option Char) (l : List Char) : Option (List Char × Nat) :=
  if ("@apply".data).isPrefixOf l then
    let ws := (l.drop 6).takeWhile pyWS
    if ws.isEmpty then none
    else
      let r := (l.drop 6).drop ws.length
      if ("font-".data).isPrefixOf r then
        let run := (r.drop 5).takeWhile fun c =>
          ('a' ≤ c && c ≤ 'z') || isDigitC c || c = '_' || c = '-'
        if !run.isEmpty && ((r.drop 5).drop run.length).head? = some ';' then
          some ("font-family: \x27".data ++ run ++ "\x27, sans-serif;".data,
                6 + ws.length + 5 + run.length + 1)
        else none
      else none
  else none

/-- `_fix_apply_font` (lines 559-570): inline `@apply` of a font utility
becomes a direct `font-family` declaration. -/
def fix_apply_font (html : String) : String :=
  if html.data.isEmpty then html
  else
    let s := scanRw (applyFontQuoteStep '\x27') none html.data
    let s := scanRw (applyFontQuoteStep '"') none s
    let s := scanRw applyFontSlugStep none s
    ⟨s⟩

/-! ## `_ensure_custom_class` (lines 301-316) -/

def selectorBraceAt (pat l : List Char) : Bool :=
  pat.isPrefixOf l &&
    (match (l.drop pat.length).dropWhile pyWS with
     | '\x7b' :: _ => true
     | _ => false)

def hasSelectorBrace (pat : List Char) : List Char → Bool
  | [] => false
  | c :: cs => selectorBraceAt pat (c :: cs) || hasSelectorBrace pat cs

/-- `_ensure_custom_class` (lines 301-316): if the class name occurs in the
document but no rule `.name {` exists, inject a defining style block. -/
def ensure_custom_class (html : String) (cn : String) (css : String) : String :=
  if html.data.isEmpty || !containsSub cn.data html.data then html
  else if hasSelectorBrace ('.' :: cn.data) html.data then html
  else
    let block := "<style type=\"text/tailwindcss\">\n@layer utilities \x7b\n  ." ++ cn ++
      " \x7b " ++ css ++ " \x7d\n\x7d\n</style>"
    ⟨insertBeforeHead block html.data⟩

/-! ## The normalization pipeline of `generate_code` (lines 1143-1149),
modelled at an empty layout -/

/-- `_inject_google_fonts` (lines 847-873) at an empty layout: the font
registry is empty, so the link and utility injections are skipped,
`_normalize_font_classes` returns its input unchanged (line 458), and only
`_fix_apply_font` remains. -/
def inject_google_fonts_emptyLayout (html : String) : String := fix_apply_font html

/-- `_apply_image_meta` (lines 612-617) at an empty layout: all metadata
maps are empty, so the document is returned unchanged. -/
def apply_image_meta_emptyLayout (html : String) : String := html

/-- `_convert_nav_to_links` (lines 757-762) at an empty layout: the route
index is empty, so the document is returned unchanged. -/
def convert_nav_to_links_emptyRoutes (html : String) : String := html

/-- The six-stage normalization pipeline of `generate_code`
(lines 1143-1148), at an empty layout: sanitization, color backfill, font
injection, image-metadata application, custom-class insurance, navigation
linking. -/
def pipelineEmpty (html : String) : String :=
  convert_nav_to_links_emptyRoutes
    (ensure_custom_class
      (apply_image_meta_emptyLayout
        (inject_google_fonts_emptyLayout
          (ensure_missing_color_utilities
            (sanitize_html_output html))))
      "text-custom-ffffff" "color: #ffffff;")

/-! ## Navigation routes (`_slugify`, `_norm`, `_stem`,
`_build_route_index`, `_match_route`, lines 690-749) and the HTML writer's
screen filename (src/main.py lines 360-378) -/

/-- `_slugify` (lines 690-692): lower-case alphanumeric words joined by
hyphens. -/
def slugify (s : String) : String :=
  ⟨joinSep ['-'] (runsOf isLowerAl (s.data.map Char.toLower))⟩

/-- `_norm` (lines 694-695): keep only lower-case alphanumerics. -/
def normName (s : String) : String :=
  ⟨(s.data.map Char.toLower).filter isLowerAl⟩

/-- `_stem` (lines 697-701): drop one of the suffixes `ing`, `ed`, `es`,
`s` when the token is long enough. -/
def stem (t : String) : String :=
  let d := t.data
  if ("ing".data).isSuffixOf d && 3 + 2 < d.length then ⟨d.take (d.length - 3)⟩
  else if ("ed".data).isSuffixOf d && 2 + 2 < d.length then ⟨d.take (d.length - 2)⟩
  else if ("es".data).isSuffixOf d && 2 + 2 < d.length then ⟨d.take (d.length - 2)⟩
  else if ("s".data).isSuffixOf d && 1 + 2 < d.length then ⟨d.take (d.length - 1)⟩
  else t

/-- `re.findall(r"[a-z0-9]+", text.lower())`. -/
def nameTokens (s : String) : List String :=
  (runsOf isLowerAl (s.data.map Char.toLower)).map fun w => (⟨w⟩ : String)

/-- Insertion into a Python-style set, modelled as a duplicate-free list. -/
def setInsert (x : String) (s : List String) : List String :=
  if s.contains x then s else s ++ [x]

def mkTokenSet (l : List String) : List String :=
  l.foldl (fun s t => setInsert t s) []

structure Route where
  name : String
  norm : String
  tokens : List String
  file : String
  deriving DecidableEq, Repr

/-- The layout IR fragment consumed by the route builder: screens grouped
in pages, each carrying its display name. -/
structure ScreenIR where
  screen : String
  deriving DecidableEq, Repr

structure PageIR where
  screens : List ScreenIR
  deriving DecidableEq, Repr

structure LayoutIR where
  pages : List PageIR
  deriving DecidableEq, Repr

/-- `_build_route_index` (lines 703-723). -/
def build_route_index (layout : LayoutIR) : List Route :=
  layout.pages.flatMap fun pg =>
    pg.screens.filterMap fun sc =>
      if sc.screen = "" then none
      else some
        { name := sc.screen
          norm := normName sc.screen
          tokens := mkTokenSet ((nameTokens sc.screen).map stem)
          file := slugify sc.screen ++ ".html" }

/-- Set intersection on the deduplicated token lists. -/
def interSet (a b : List String) : List String := a.filter b.contains

/-- The fuzzy score of line 743: the fraction of the route's stemmed tokens
present in the label's stemmed token set. -/
def routeScore (lset : List String) (r : Route) : ℚ :=
  Rat.divInt ((interSet lset r.tokens).length : ℤ) (max r.tokens.length 1 : ℤ)

/-- One iteration of the best-score loop (lines 738-745): routes without
overlap are skipped, a strictly better score replaces the best. -/
def matchFoldStep (lset : List String) (b : ℚ × Option String) (r : Route) :
    ℚ × Option String :=
  if (interSet lset r.tokens).isEmpty then b
  else if b.1 < routeScore lset r then (routeScore lset r, some r.file) else b

/-- The label's stemmed token set (lines 733-734). -/
def labelTokenSet (label : String) : List String :=
  mkTokenSet ((nameTokens label).map stem)

/-- `_match_route` (lines 725-749). -/
def match_route (label : String) (routes : List Route) : Option String :=
  if label = "" then none
  else
    let ln := normName label
    match routes.find? (fun r => r.norm == ln) with
    | some r => some r.file
    | none =>
      let lset := labelTokenSet label
      if lset.isEmpty then none
      else
        let best := routes.foldl (matchFoldStep lset) ((0 : ℚ), (none : Option String))
        if Rat.divInt 1 2 ≤ best.1 then best.2 else none

/-- The filename `_build_route_index` links to (line 713). -/
def route_filename (name : String) : String := slugify name ++ ".html"

/-- The filename the HTML writer actually writes the screen to
(src/main.py lines 363-364): lower-cased name with spaces replaced by
underscores. -/
def writer_screen_filename (name : String) : String :=
  (⟨(name.data.map Char.toLower).map fun c => if c = ' ' then '_' else c⟩ : String) ++ ".html"

/-! ## Image fit classes (`_desired_object` and `_replace_img`,
lines 619-662) -/

structure BoxWH where
  w : Option ℚ := none
  h : Option ℚ := none
  deriving DecidableEq, Repr

/-- Python truthiness of an optional number: `None` and `0` are falsy. -/
def truthyQ : Option ℚ → Bool
  | none => false
  | some x => x ≠ 0

/-- `_desired_object` (lines 619-634). -/
def desired_object (scale : Option String) (size screen : Option BoxWH) : String :=
  if scale = some "FIT" then "object-contain"
  else if scale = some "FILL" || scale = some "CROP" then
    let sw := screen.bind BoxWH.w
    let sh := screen.bind BoxWH.h
    let w := size.bind BoxWH.w
    let h := size.bind BoxWH.h
    if truthyQ sw && truthyQ sh && truthyQ w && truthyQ h then
      if qDiv (w.getD 0) (sw.getD 1) < Rat.divInt 3 5 &&
          qDiv (h.getD 0) (sh.getD 1) < Rat.divInt 3 5 then
        "object-contain"
      else "object-cover"
    else "object-cover"
  else "object-contain"

/-- The conflicting fit classes removed by `_replace_img` (line 648). -/
def fitClassSet : List String :=
  ["object-cover", "object-contain", "object-fill", "object-scale-down"]

/-- Render a rational the way Python `str` renders the radius (integral
values without a point, terminating decimals otherwise; the fuel bounds the
number of decimal digits). -/
def fracDigitsAux : Nat → ℚ → List Char
  | 0, _ => []
  | n + 1, q =>
    if q = 0 then []
    else
      let q10 := qMulNat q 10
      Char.ofNat (48 + ⌊q10⌋.toNat) :: fracDigitsAux n (qFrac q10)

def qDecStr (q : ℚ) : String :=
  if q.den = 1 then intStr q.num
  else
    (if q < 0 then "-" else "") ++ natStr ⌊|q|⌋.toNat ++ "." ++
      (⟨fracDigitsAux 20 (qFrac |q|)⟩ : String)

/-- The class rewriting of `_replace_img` (lines 642-656): remove the
conflicting fit classes, append the desired one when missing, and append a
bracketed radius class when a radius is known and no rounding class is
present. -/
def replace_img_classes (classes : List String) (desired : String) (radius : Option ℚ) :
    List String :=
  let cs := classes.filter fun c => !fitClassSet.contains c
  let cs := if cs.contains desired then cs else cs ++ [desired]
  match radius with
  | some r =>
    if cs.any (fun c => ("rounded-".data).isPrefixOf c.data) then cs
    else cs ++ ["rounded-[" ++ qDecStr r ++ "px]"]
  | none => cs

def countFit (classes : List String) : Nat :=
  (classes.filter fun c => fitClassSet.contains c).length

/-! ## `_ensure_html_document` (lines 486-557) and the HTML-mode control
flow of `generate_code` (lines 1137-1180) -/

def tailwindScript : String := "<script src=\"https://cdn.tailwindcss.com\"></script>"

/-- A full tailwindcss style block (the findall/sub of lines 501-511),
returned whole. -/
def twFullStep (_ : Option Char) (l : List Char) : Option (List Char × Nat) :=
  if beginsCI "<style".data l then
    match findSplit ['>'] (l.drop 6) with
    | none => none
    | some (attrs, afterGt) =>
      if containsTwType attrs then
        match findSplitCI "</style>".data afterGt with
        | some (mid, _, _) =>
          let len := 6 + attrs.length + 1 + mid.length + 8
          some (l.take len, len)
        | none => none
      else none
  else none

def findTwStyleBlocks (l : List Char) : List (List Char) :=
  scanFind twFullStep none l

def removeTwStyleBlocks (l : List Char) : List Char :=
  scanRw (fun p s => (twFullStep p s).map fun (_, k) => (([] : List Char), k)) none l

/-- `_inject_head` (lines 513-520). -/
def inject_head_open (hasTw : Bool) (styles : List (List Char)) (headOpen : List Char) :
    List Char :=
  let inj := (if hasTw then [] else [tailwindScript.data]) ++ styles
  if inj.isEmpty then headOpen
  else headOpen ++ "\n    ".data ++ joinSep "\n    ".data inj

/-- The head-opening tag substitution of line 525 (`<head[^>]*>`,
first match only). -/
def headOpenStep (hasTw : Bool) (styles : List (List Char)) (l : List Char) :
    Option (List Char × Nat) :=
  if beginsCI "<head".data l then
    match findSplit ['>'] (l.drop 5) with
    | some (attrs, _) =>
      let len := 5 + attrs.length + 1
      some (inject_head_open hasTw styles (l.take len), len)
    | none => none
  else none

/-- The synthetic head of lines 527-536 (document had a body but no
head). -/
def headPartsNoHead (hasTw : Bool) (styles : List (List Char)) : List Char :=
  joinSep ['\n']
    (["<head>".data,
      "    <meta charset=\"UTF-8\">".data,
      "    <meta name=\"viewport\" content=\"width=device-width, initial-scale=1.0\">".data] ++
      (if hasTw then [] else ["    ".data ++ tailwindScript.data]) ++
      styles.map ("    ".data ++ ·) ++
      ["</head>".data])

/-- The full-document wrap of lines 545-557 (plain fragment). -/
def fragmentWrap (hasTw : Bool) (styles : List (List Char)) (textWo : List Char) :
    List Char :=
  let headL := joinSep ['\n']
    (["<head>".data,
      "    <meta charset=\"UTF-8\">".data,
      "    <meta name=\"viewport\" content=\"width=device-width, initial-scale=1.0\">".data,
      "    <title>Figma to HTML</title>".data] ++
      (if hasTw then [] else ["    ".data ++ tailwindScript.data]) ++
      styles.map ("    ".data ++ ·) ++
      ["</head>".data])
  "<!DOCTYPE html>\n<html lang=\"en\">\n".data ++ headL ++ '\n' ::
    ("<body>\n".data ++ textWo ++ "\n</body>".data) ++ "\n</html>".data

/-- `_ensure_html_document` (lines 486-557). -/
def ensure_html_document (text : String) : String :=
  if text.data.isEmpty then text
  else if !(text.data.contains '<') || !(text.data.contains '>') then text
  else if containsSubCI "<html".data text.data then text
  else
    let hasTw := containsSubCI "cdn.tailwindcss.com".data text.data
    let styles := findTwStyleBlocks text.data
    let textWo := stripL (removeTwStyleBlocks text.data)
    if containsSubCI "<head".data text.data || containsSubCI "<body".data text.data then
      let doc :=
        if containsSubCI "<head".data text.data then
          subFirst (headOpenStep hasTw styles) textWo
        else headPartsNoHead hasTw styles ++ '\n' :: textWo
      let doc :=
        if containsSubCI "<html".data doc then doc
        else "<html lang=\"en\">\n".data ++ doc ++ "\n</html>".data
      let doc :=
        if containsSubCI "<!doctype".data doc then doc
        else "<!DOCTYPE html>\n".data ++ doc
      ⟨doc⟩
    else ⟨fragmentWrap hasTw styles textWo⟩

/-- The ways the HTML mode of `generate_code` can end on a given model
text: the "AI did not return HTML" failure, the
"AI output truncated before </html>" failure, or a completed document. -/
inductive GenOutcome where
  | noHtmlError : GenOutcome
  | truncatedError : GenOutcome
  | completed : String → GenOutcome
  deriving DecidableEq, Repr

/-- The model text wrapped as in lines 1138-1139 of `generate_code`: the
document-completion pass runs only when the text does not already carry an
`<html` marker. -/
def wrapped_model_text (text : String) : String :=
  if containsSubCI "<html".data text.data then text else ensure_html_document text

/-- The HTML-mode control flow of `generate_code` (lines 1137-1180) on the
stripped model text, at an empty layout, with the truncation-continuation
loop modelled as producing no further text (the continuation re-invokes the
external generator; when nothing arrives the loop breaks and the truncation
failure is raised, line 1180). -/
def generate_html_outcome (text : String) : GenOutcome :=
  let t := wrapped_model_text text
  if !containsSubCI "<html".data t.data then .noHtmlError
  else if containsSubCI "</html>".data t.data then .completed (pipelineEmpty t)
  else .truncatedError

/-! ## Data-URI externalization (src/main.py, `_extract_data_uris` and
`_write_asset`, lines 207-309) -/

/-- SHA-1, embedded as a pure function on byte lists (the content hash of
`_write_asset`, line 225). -/
def w32 (n : Nat) : Nat := n % 4294967296

def rotl (b n : Nat) : Nat := w32 (n * 2 ^ b + n / 2 ^ (32 - b))

def be8 (n : Nat) : List Nat :=
  (List.range 8).map fun i => n / 2 ^ (8 * (7 - i)) % 256

def be4 (n : Nat) : List Nat :=
  (List.range 4).map fun i => n / 2 ^ (8 * (3 - i)) % 256

def sha1Pad (msg : List Nat) : List Nat :=
  let padZeros := (119 - msg.length % 64) % 64
  msg ++ 128 :: List.replicate padZeros 0 ++ be8 (8 * msg.length)

def chunks64Aux : Nat → List Nat → List (List Nat)
  | 0, _ => []
  | _ + 1, [] => []
  | fuel + 1, b :: rest => ((b :: rest).take 64) :: chunks64Aux fuel ((b :: rest).drop 64)

def chunks64 (l : List Nat) : List (List Nat) := chunks64Aux l.length l

def sha1Words16 (chunk : List Nat) : List Nat :=
  (List.range 16).map fun i =>
    chunk.getD (4 * i) 0 * 16777216 + chunk.getD (4 * i + 1) 0 * 65536 +
      chunk.getD (4 * i + 2) 0 * 256 + chunk.getD (4 * i + 3) 0

def sha1Extend (w : List Nat) : Nat → List Nat
  | 0 => w
  | n + 1 =>
    sha1Extend
      (w ++ [rotl 1 ((w.getD (w.length - 3) 0) ^^^ (w.getD (w.length - 8) 0) ^^^
        (w.getD (w.length - 14) 0) ^^^ (w.getD (w.length - 16) 0))]) n

def sha1F (i b c d : Nat) : Nat :=
  if i < 20 then (b &&& c) ||| ((4294967295 - b) &&& d)
  else if i < 40 then b ^^^ c ^^^ d
  else if i < 60 then (b &&& c) ||| (b &&& d) ||| (c &&& d)
  else b ^^^ c ^^^ d

def sha1K (i : Nat) : Nat :=
  if i < 20 then 1518500249
  else if i < 40 then 1859775393
  else if i < 60 then 2400959708
  else 3395469782

def sha1Round (w : List Nat) (st : Nat × Nat × Nat × Nat × Nat) (i : Nat) :
    Nat × Nat × Nat × Nat × Nat :=
  let (a, b, c, d, e) := st
  let temp := w32 (rotl 5 a + sha1F i b c d + e + sha1K i + w.getD i 0)
  (temp, a, rotl 30 b, c, d)

def sha1Chunk (h : Nat × Nat × Nat × Nat × Nat) (chunk : List Nat) :
    Nat × Nat × Nat × Nat × Nat :=
  let w := sha1Extend (sha1Words16 chunk) 64
  let st := (List.range 80).foldl (sha1Round w) h
  (w32 (h.1 + st.1), w32 (h.2.1 + st.2.1), w32 (h.2.2.1 + st.2.2.1),
   w32 (h.2.2.2.1 + st.2.2.2.1), w32 (h.2.2.2.2 + st.2.2.2.2))

def sha1 (msg : List Nat) : List Nat :=
  let h := (chunks64 (sha1Pad msg)).foldl sha1Chunk
    (1732584193, 4023233417, 2562383102, 271733878, 3285377520)
  be4 h.1 ++ be4 h.2.1 ++ be4 h.2.2.1 ++ be4 h.2.2.2.1 ++ be4 h.2.2.2.2

def hexCharOf (n : Nat) : Char :=
  if n < 10 then Char.ofNat (48 + n) else Char.ofNat (87 + n)

def bytesHex (bs : List Nat) : List Char :=
  bs.flatMap fun b => [hexCharOf (b / 16), hexCharOf (b % 16)]

/-- `hashlib.sha1(raw).hexdigest()[:16]` (line 225). -/
def sha1Hex16 (raw : List Nat) : String := ⟨(bytesHex (sha1 raw)).take 16⟩

/-- Base64 alphabet membership. -/
def isB64C (c : Char) : Bool :=
  ('A' ≤ c && c ≤ 'Z') || ('a' ≤ c && c ≤ 'z') || isDigitC c || c = '+' || c = '/'

def b64Val (c : Char) : Nat :=
  if 'A' ≤ c && c ≤ 'Z' then c.toNat - 65
  else if 'a' ≤ c && c ≤ 'z' then c.toNat - 71
  else if isDigitC c then c.toNat + 4
  else if c = '+' then 62
  else 63

/-- `base64.b64decode` in its default non-strict mode: characters outside
the alphabet are skipped, a padding character that completes the current
quad ends the decode, and a leftover quad position at the end of input is
an error (one leftover character or an incomplete padding). -/
def b64Core : List Char → Nat → Nat → Nat → List Nat → Option (List Nat)
  | [], q, _, _, acc => if q = 0 then some acc.reverse else none
  | c :: cs, q, pads, buf, acc =>
    if c = '=' then
      if 2 ≤ q && 4 ≤ q + (pads + 1) then some acc.reverse
      else b64Core cs q (pads + 1) buf acc
    else if isB64C c then
      let v := b64Val c
      match q with
      | 0 => b64Core cs 1 0 v acc
      | 1 => b64Core cs 2 0 ((buf * 64 + v) % 16) (((buf * 64 + v) / 16) :: acc)
      | 2 => b64Core cs 3 0 ((buf * 64 + v) % 4) (((buf * 64 + v) / 4) :: acc)
      | _ => b64Core cs 0 0 0 ((buf * 64 + v) :: acc)
    else b64Core cs q pads buf acc

def base64Decode (s : List Char) : Option (List Nat) := b64Core s 0 0 0 []

/-- General hexadecimal digit value (both cases). -/
def hexValAny (c : Char) : Nat :=
  if isDigitC c then c.toNat - 48
  else if 'a' ≤ c && c ≤ 'f' then c.toNat - 87
  else c.toNat - 55

/-- UTF-8 encoding of one character. -/
def utf8Bytes (c : Char) : List Nat :=
  let n := c.toNat
  if n < 128 then [n]
  else if n < 2048 then [192 + n / 64, 128 + n % 64]
  else if n < 65536 then [224 + n / 4096, 128 + n / 64 % 64, 128 + n % 64]
  else [240 + n / 262144, 128 + n / 4096 % 64, 128 + n / 64 % 64, 128 + n % 64]

/-- `urllib.parse.unquote(data).encode("utf-8")`, modelled byte-level: a
valid percent escape decodes to its byte, everything else contributes its
UTF-8 bytes (this agrees with the source whenever the escaped bytes form
valid UTF-8; `unquote` itself never raises). -/
def percentDecode : List Char → List Nat
  | [] => []
  | '%' :: h1 :: h2 :: rest =>
    if isHexC h1 && isHexC h2 then
      (hexValAny h1 * 16 + hexValAny h2) :: percentDecode rest
    else utf8Bytes '%' ++ percentDecode (h1 :: h2 :: rest)
  | c :: rest => utf8Bytes c ++ percentDecode rest

/-- The asset directory, modelled as an association list from filename to
written bytes (content-addressed, skip-if-exists). -/
abbrev AssetStore : Type := List (String × List Nat)

/-- The extension inference of `_write_asset` (lines 216-224). -/
def extFor (mime : String) : String :=
  if containsStr mime "svg" then "svg"
  else if containsStr mime "png" then "png"
  else if containsStr mime "jpeg" || containsStr mime "jpg" then "jpg"
  else if containsStr mime "webp" then "webp"
  else "bin"

/-- The content-hash filename of `_write_asset` (lines 225-226). -/
def assetFilename (raw : List Nat) (mime : String) : String :=
  "inline-" ++ sha1Hex16 raw ++ "." ++ extFor mime

/-- `_write_asset` (lines 215-231): write the asset once per filename
(skip-if-exists) and return its serving path. -/
def write_asset (store : AssetStore) (raw : List Nat) (mime : String)
    (urlPre : String) : String × AssetStore :=
  let fn := assetFilename raw mime
  let store' : AssetStore :=
    if (store.map Prod.fst).contains fn then store else store ++ [(fn, raw)]
  (urlPre ++ "/" ++ fn, store')

/-- `_save_data_uri` (lines 233-240): a base64 `src` payload; decoding
failure returns the original attribute text unchanged. -/
def save_data_uri (store : AssetStore) (urlPre mime data orig : String) :
    String × AssetStore :=
  match base64Decode data.data with
  | none => (orig, store)
  | some raw =>
    let mimeL : String := ⟨mime.data.map Char.toLower⟩
    let (p, store') := write_asset store raw mimeL urlPre
    ("src=\"" ++ p ++ "\"", store')

/-- `_save_svg_text_uri` (lines 255-262): a percent-encoded SVG `src`
payload; the decode is total, so this always rewrites. -/
def save_svg_text_uri (store : AssetStore) (urlPre data : String) :
    String × AssetStore :=
  let raw := percentDecode data.data
  let (p, store') := write_asset store raw "image/svg+xml" urlPre
  ("src=\"" ++ p ++ "\"", store')

/-- Number of (non-overlapping, left-to-right) occurrences of `pat`. -/
def countSubOcc (pat l : List Char) : Nat :=
  (scanFind (fun _ s => if pat.isPrefixOf s then some ((), pat.length) else none)
    none l).length

/-! # Theorems -/

/-! ## General lemmas -/

theorem natDigitsAux_digits :
    ∀ fuel n : Nat, ∀ c ∈ natDigitsAux fuel n, isDigitC c = true := by
  intro fuel
  induction fuel with
  | zero => intro n c hc; simp [natDigitsAux] at hc
  | succ fuel ih =>
    intro n c hc
    simp only [natDigitsAux] at hc
    split at hc
    · rename_i hn
      simp only [List.mem_singleton] at hc
      subst hc
      interval_cases n <;> decide
    · rcases List.mem_append.mp hc with h | h
      · exact ih _ _ h
      · simp only [List.mem_singleton] at h
        subst h
        have hlt : n % 10 < 10 := Nat.mod_lt _ (by omega)
        set m := n % 10 with hm
        clear_value m
        interval_cases m <;> decide

theorem intStr_no_dot (n : ℤ) : '.' ∉ (intStr n).data := by
  intro hmem
  unfold intStr natStr natDigits at hmem
  rw [String.data_append] at hmem
  rcases List.mem_append.mp hmem with h | h
  · split at h <;> simp_all
  · have := natDigitsAux_digits _ _ _ h
    simp [isDigitC] at this

theorem beginsCI_append {pat : List Char} :
    ∀ {a : List Char} (b : List Char), beginsCI pat a = true → beginsCI pat (a ++ b) = true := by
  induction pat with
  | nil => intro a b _; rfl
  | cons p ps ih =>
    intro a b h
    cases a with
    | nil => simp [beginsCI] at h
    | cons c cs =>
      simp only [beginsCI, Bool.and_eq_true] at h ⊢
      exact ⟨h.1, ih b h.2⟩

theorem containsSubCI_nil_pat : ∀ l : List Char, containsSubCI [] l = true := by
  intro l; cases l <;> rfl

theorem containsSubCI_append_left {pat : List Char} :
    ∀ {a : List Char} (b : List Char),
      containsSubCI pat a = true → containsSubCI pat (a ++ b) = true := by
  intro a
  induction a with
  | nil =>
    intro b h
    simp only [containsSubCI] at h
    cases pat with
    | nil => simpa using containsSubCI_nil_pat b
    | cons p ps => simp [beginsCI] at h
  | cons c cs ih =>
    intro b h
    simp only [containsSubCI, Bool.or_eq_true] at h
    rcases h with h | h
    · have : beginsCI pat ((c :: cs) ++ b) = true := beginsCI_append b h
      simp only [List.cons_append] at this ⊢
      simp [containsSubCI, this]
    · simp only [List.cons_append, containsSubCI, Bool.or_eq_true]
      exact Or.inr (ih b h)

theorem containsSubCI_append_right {pat : List Char} :
    ∀ (a : List Char) {b : List Char},
      containsSubCI pat b = true → containsSubCI pat (a ++ b) = true := by
  intro a
  induction a with
  | nil => intro b h; simpa using h
  | cons c cs ih =>
    intro b h
    simp only [List.cons_append, containsSubCI, Bool.or_eq_true]
    exact Or.inr (ih h)

theorem runsOfAux_chars {p : Char → Bool} :
    ∀ (l cur : List Char), (∀ c ∈ cur, p c = true) →
      ∀ w ∈ runsOfAux p cur l, ∀ c ∈ w, p c = true := by
  intro l
  induction l with
  | nil =>
    intro cur hcur w hw c hc
    simp only [runsOfAux] at hw
    split at hw
    · simp at hw
    · simp only [List.mem_singleton] at hw
      subst hw
      exact hcur c (List.mem_reverse.mp hc)
  | cons a as ih =>
    intro cur hcur w hw
    simp only [runsOfAux] at hw
    split at hw
    · rename_i hpa
      refine ih (a :: cur) ?_ w hw
      intro c hc
      rcases List.mem_cons.mp hc with h | h
      · subst h; exact hpa
      · exact hcur c h
    · split at hw
      · exact ih [] (by simp) w hw
      · rcases List.mem_cons.mp hw with h | h
        · subst h
          intro c hc
          exact hcur c (List.mem_reverse.mp hc)
        · exact ih [] (by simp) w h

theorem runsOf_chars {p : Char → Bool} (l : List Char) :
    ∀ w ∈ runsOf p l, ∀ c ∈ w, p c = true :=
  runsOfAux_chars l [] (by simp)

theorem joinSep_chars {sep : List Char} :
    ∀ (ws : List (List Char)) (c : Char),
      c ∈ joinSep sep ws → c ∈ sep ∨ ∃ w ∈ ws, c ∈ w := by
  intro ws
  induction ws with
  | nil => intro c hc; simp [joinSep] at hc
  | cons w ws ih =>
    intro c hc
    cases ws with
    | nil =>
      simp only [joinSep] at hc
      exact Or.inr ⟨w, by simp, hc⟩
    | cons w' ws' =>
      simp only [joinSep] at hc
      rcases List.mem_append.mp hc with h | h
      · rcases List.mem_append.mp h with h | h
        · exact Or.inr ⟨w, by simp, h⟩
        · exact Or.inl h
      · rcases ih c h with h | ⟨u, hu, hcu⟩
        · exact Or.inl h
        · exact Or.inr ⟨u, List.mem_cons_of_mem _ hu, hcu⟩

theorem slugify_no_underscore (name : String) : '_' ∉ (slugify name).data := by
  intro h
  have h' : '_' ∈ joinSep ['-'] (runsOf isLowerAl (name.data.map Char.toLower)) := h
  rcases joinSep_chars _ _ h' with h | ⟨w, hw, hcw⟩
  · simp at h
  · have := runsOf_chars _ w hw '_' hcw
    simp [isLowerAl, isDigitC] at this

/-! ## C1 — spacing-scale correction -/

/-- C1: the claim states that a spacing token whose bare number is in the
default spacing scale is returned unchanged, and that only out-of-scale
numbers are bracketed.  The code never consults `VALID_SPACING_SCALE`
(the constant is dead), so `gap-30` is bracketed as claimed but the
in-scale `gap-8` is bracketed as well, both at the token rule and through
the whole sanitisation stage.  This contradicts the rule's own comment
("Convert spacing tokens not in default scale to bracketed px"), so the
claim is recorded as a code bug; this theorem evaluates the code at the
failing input. -/
theorem C1_spacing_scale_not_consulted :
    replace_spacing_token [] "gap-30" = "gap-[30px]" ∧
    VALID_SPACING_SCALE.contains "8" = true ∧
    replace_spacing_token [] "gap-8" = "gap-[8px]" ∧
    sanitize_html_output "<div class=\"gap-8\"></div>" =
      "<div class=\"gap-[8px]\"></div>" := by
  refine ⟨by decide, by decide, by decide, by decide⟩

/-! ## C2 — idempotence of the full pipeline -/

/-- C2 counterexample: the comment-repair substitution collapses one
malformed comment opener per scan, so a document with two overlapping
openers needs two passes; the full pipeline maps `<!--a<!--b<div>` to
`<!--b<div>` and only a second application reaches `<div>`.  Hence the
pipeline is not idempotent. -/
theorem C2_counterexample :
    pipelineEmpty "<!--a<!--b<div>" = "<!--b<div>" ∧
    pipelineEmpty "<!--b<div>" = "<div>" ∧
    pipelineEmpty (pipelineEmpty "<!--a<!--b<div>") ≠ pipelineEmpty "<!--a<!--b<div>" := by
  refine ⟨by decide, by decide, by decide⟩

/-- C2 amended: the pipeline is idempotent only on inputs whose single
application is already a fixed point (in particular on already-normalized
documents); on inputs where a stage needs several passes — such as
overlapping malformed comment openers surviving one comment repair — a
second application changes the text further (see the counterexample). -/
theorem C2_pipeline_idempotent_on_fixed_points (s : String)
    (h : pipelineEmpty s = s) :
    pipelineEmpty (pipelineEmpty s) = pipelineEmpty s := by
  rw [h]; exact h

theorem C2_pipeline_idempotent_on_fixed_points_witness :
    pipelineEmpty "<div>x</div>" = "<div>x</div>" ∧
    pipelineEmpty (pipelineEmpty "<div>x</div>") = pipelineEmpty "<div>x</div>" :=
  ⟨by decide, C2_pipeline_idempotent_on_fixed_points "<div>x</div>" (by decide)⟩

/-! ## C4 — letter-spacing clamp -/

/-- C4: every clamped letter-spacing value lies in the closed interval
[-10, 10]; a value already in the interval passes through unchanged; a
whole clamped value is formatted without a decimal point; and the
document-level substitution behaves accordingly on in-range, clamped and
fractional declarations. -/
theorem C4_letter_spacing_clamp :
    (∀ v : ℚ, -10 ≤ clampLetterSpacingValue v ∧ clampLetterSpacingValue v ≤ 10) ∧
    (∀ v : ℚ, -10 ≤ v → v ≤ 10 → clampLetterSpacingValue v = v) ∧
    (∀ v : ℚ, (clampLetterSpacingValue v).den = 1 →
      '.' ∉ (formatClamped (clampLetterSpacingValue v)).data) ∧
    (⟨scanRw clampLSStep none ("letter-spacing: 25px").data⟩ : String) =
      "letter-spacing: 10px" ∧
    (⟨scanRw clampLSStep none ("letter-spacing: -3.5px").data⟩ : String) =
      "letter-spacing: -3.5px" ∧
    (⟨scanRw clampLSStep none ("letter-spacing: -40.5px").data⟩ : String) =
      "letter-spacing: -10px" := by
  refine ⟨?_, ?_, ?_, by decide, by decide, by decide⟩
  · intro v
    unfold clampLetterSpacingValue
    split
    · rename_i habs
      exact abs_le.mp habs
    · constructor
      · exact le_max_left _ _
      · exact max_le (by norm_num) (min_le_left _ _)
  · intro v h1 h2
    unfold clampLetterSpacingValue
    rw [if_pos (abs_le.mpr ⟨h1, h2⟩)]
  · intro v hden
    unfold formatClamped
    rw [if_pos hden]
    exact intStr_no_dot _

theorem C4_letter_spacing_clamp_witness :
    clampLetterSpacingValue (-3) = -3 ∧
    -10 ≤ clampLetterSpacingValue 25 ∧ clampLetterSpacingValue 25 ≤ 10 ∧
    '.' ∉ (formatClamped (clampLetterSpacingValue 25)).data :=
  ⟨C4_letter_spacing_clamp.2.1 (-3) (by norm_num) (by norm_num),
   (C4_letter_spacing_clamp.1 25).1, (C4_letter_spacing_clamp.1 25).2,
   C4_letter_spacing_clamp.2.2.1 25 (by decide)⟩

/-! ## C10 — route filename vs. writer filename -/

/-- C10: for every screen name containing a space, the filename the route
index links to (`_slugify(name) + ".html"`) differs from the filename the
HTML writer writes (`name.lower().replace(" ", "_") + ".html"`): the
writer's name keeps an underscore where the slug never contains one.  The
two functions agree exactly on names whose two normalized forms coincide,
as for the single-word name "Contact". -/
theorem C10_route_vs_writer_filename :
    (∀ name : String, ' ' ∈ name.data →
      route_filename name ≠ writer_screen_filename name) ∧
    route_filename "About Us" = "about-us.html" ∧
    writer_screen_filename "About Us" = "about_us.html" ∧
    (∀ name : String, route_filename name = writer_screen_filename name ↔
      slugify name =
        (⟨(name.data.map Char.toLower).map fun c => if c = ' ' then '_' else c⟩ : String)) ∧
    route_filename "Contact" = writer_screen_filename "Contact" := by
  have hwriter : ∀ name : String, ' ' ∈ name.data →
      '_' ∈ (writer_screen_filename name).data := by
    intro name hsp
    unfold writer_screen_filename
    rw [String.data_append]
    apply List.mem_append.mpr
    left
    have h1 : Char.toLower ' ' ∈ name.data.map Char.toLower :=
      List.mem_map_of_mem Char.toLower hsp
    have h2 : ' ' ∈ name.data.map Char.toLower := by
      simpa using h1
    have h3 := List.mem_map_of_mem (fun c => if c = ' ' then '_' else c) h2
    simpa using h3
  have hroute : ∀ name : String, '_' ∉ (route_filename name).data := by
    intro name h
    unfold route_filename at h
    rw [String.data_append] at h
    rcases List.mem_append.mp h with h | h
    · exact slugify_no_underscore name h
    · simp at h
  refine ⟨?_, by decide, by decide, ?_, by decide⟩
  · intro name hsp heq
    exact hroute name (heq ▸ hwriter name hsp)
  · intro name
    constructor
    · intro h
      have hdata := congrArg String.data h
      unfold route_filename writer_screen_filename at hdata
      rw [String.data_append, String.data_append] at hdata
      exact String.ext (List.append_cancel_right hdata)
    · intro h
      unfold route_filename writer_screen_filename
      rw [h]

theorem C10_route_vs_writer_filename_witness :
    route_filename "About Us" ≠ writer_screen_filename "About Us" :=
  C10_route_vs_writer_filename.1 "About Us" (by decide)

/-! ## C3 — route matching -/

theorem divInt_half_eq : Rat.divInt 1 2 = (1 : ℚ) / 2 := by
  rw [Rat.divInt_eq_div]; norm_num

theorem routeScore_empty_inter {lset : List String} {r : Route}
    (h : (interSet lset r.tokens).isEmpty = true) : routeScore lset r = 0 := by
  unfold routeScore
  rw [List.isEmpty_iff] at h
  rw [h, Rat.divInt_eq_div]
  simp

theorem routeScore_of_nil_lset (r : Route) : routeScore [] r = 0 :=
  routeScore_empty_inter (by rfl)

theorem matchFoldStep_fst_ge (lset : List String) (b : ℚ × Option String) (r : Route) :
    b.1 ≤ (matchFoldStep lset b r).1 := by
  unfold matchFoldStep
  split_ifs with h1 h2
  · exact le_refl _
  · exact le_of_lt h2
  · exact le_refl _

theorem matchFoldStep_score_le (lset : List String) (b : ℚ × Option String) (r : Route)
    (hb : 0 ≤ b.1) : routeScore lset r ≤ (matchFoldStep lset b r).1 := by
  unfold matchFoldStep
  split_ifs with h1 h2
  · rw [routeScore_empty_inter h1]; exact hb
  · exact le_refl _
  · exact le_of_not_lt h2

theorem matchFold_fst_mono (lset : List String) :
    ∀ (rs : List Route) (b : ℚ × Option String),
      b.1 ≤ (rs.foldl (matchFoldStep lset) b).1 := by
  intro rs
  induction rs with
  | nil => intro b; exact le_refl _
  | cons r rs ih =>
    intro b
    rw [List.foldl_cons]
    exact le_trans (matchFoldStep_fst_ge lset b r) (ih _)

theorem matchFold_score_le (lset : List String) :
    ∀ (rs : List Route) (b : ℚ × Option String), 0 ≤ b.1 →
      ∀ r ∈ rs, routeScore lset r ≤ (rs.foldl (matchFoldStep lset) b).1 := by
  intro rs
  induction rs with
  | nil => intro b _ r hr; simp at hr
  | cons r' rs ih =>
    intro b hb r hr
    rw [List.foldl_cons]
    rcases List.mem_cons.mp hr with h | h
    · subst h
      exact le_trans (matchFoldStep_score_le lset b r hb) (matchFold_fst_mono lset rs _)
    · exact ih _ (le_trans hb (matchFoldStep_fst_ge lset b r')) r h

theorem matchFold_result (lset : List String) :
    ∀ (rs : List Route) (b : ℚ × Option String),
      rs.foldl (matchFoldStep lset) b = b ∨
        ∃ r ∈ rs, rs.foldl (matchFoldStep lset) b = (routeScore lset r, some r.file) := by
  intro rs
  induction rs with
  | nil => intro b; left; rfl
  | cons r' rs ih =>
    intro b
    have hstep : matchFoldStep lset b r' = b ∨
        matchFoldStep lset b r' = (routeScore lset r', some r'.file) := by
      unfold matchFoldStep; split_ifs <;> simp
    rw [List.foldl_cons]
    rcases hstep with h | h
    · rw [h]
      rcases ih b with h2 | ⟨r, hr, h2⟩
      · left; exact h2
      · right; exact ⟨r, List.mem_cons_of_mem _ hr, h2⟩
    · rw [h]
      rcases ih (routeScore lset r', some r'.file) with h2 | ⟨r, hr, h2⟩
      · right; exact ⟨r', List.mem_cons_self _ _, h2⟩
      · right; exact ⟨r, List.mem_cons_of_mem _ hr, h2⟩

theorem find?_none_of_no_exact {label : String} {routes : List Route}
    (h : ∀ r ∈ routes, r.norm ≠ normName label) :
    routes.find? (fun r' => r'.norm == normName label) = none := by
  rw [List.find?_eq_none]
  intro r hr
  simpa using h r hr

theorem match_route_fuzzy_eq {label : String} {routes : List Route}
    (hl : label ≠ "")
    (hfind : routes.find? (fun r' => r'.norm == normName label) = none) :
    match_route label routes =
      (if (labelTokenSet label).isEmpty = true then none
       else
         if Rat.divInt 1 2 ≤
             (routes.foldl (matchFoldStep (labelTokenSet label)) ((0 : ℚ), none)).1
         then (routes.foldl (matchFoldStep (labelTokenSet label)) ((0 : ℚ), none)).2
         else none) := by
  simp only [match_route]
  rw [if_neg hl, hfind]

/-- C3: route matching first returns the first route whose normalized name
equals the normalized label; otherwise it returns the file of a
best-scoring route exactly when that best score reaches 1/2, where the
score is the fraction of the route's stemmed tokens present in the label's
stemmed token set; with the routes built from screens "About Us" and
"Contact", label "About us" resolves exactly and "Get in touch" (no token
overlap) yields no link. -/
theorem C3_match_route_spec :
    (∀ (label : String) (routes : List Route) (r : Route), label ≠ "" →
      routes.find? (fun r' => r'.norm == normName label) = some r →
      match_route label routes = some r.file) ∧
    (∀ (label : String) (routes : List Route) (f : String),
      (∀ r ∈ routes, r.norm ≠ normName label) →
      match_route label routes = some f →
      ∃ r ∈ routes, f = r.file ∧ (1 : ℚ) / 2 ≤ routeScore (labelTokenSet label) r ∧
        ∀ r' ∈ routes,
          routeScore (labelTokenSet label) r' ≤ routeScore (labelTokenSet label) r) ∧
    (∀ (label : String) (routes : List Route) (r : Route),
      (∀ r' ∈ routes, r'.norm ≠ normName label) → r ∈ routes →
      (1 : ℚ) / 2 ≤ routeScore (labelTokenSet label) r →
      ∃ f, match_route label routes = some f) ∧
    (∀ (label : String) (routes : List Route),
      (∀ r ∈ routes, r.norm ≠ normName label) →
      (∀ r ∈ routes, routeScore (labelTokenSet label) r < (1 : ℚ) / 2) →
      match_route label routes = none) ∧
    match_route "About us"
      (build_route_index ⟨[⟨[⟨"About Us"⟩, ⟨"Contact"⟩]⟩]⟩) = some "about-us.html" ∧
    match_route "Get in touch"
      (build_route_index ⟨[⟨[⟨"About Us"⟩, ⟨"Contact"⟩]⟩]⟩) = none := by
  refine ⟨?_, ?_, ?_, ?_, by decide, by decide⟩
  · intro label routes r hl hfind
    simp only [match_route]
    rw [if_neg hl, hfind]
  · intro label routes f hnoexact hsome
    have hfind := find?_none_of_no_exact hnoexact
    by_cases hl : label = ""
    · simp only [match_route] at hsome
      rw [if_pos hl] at hsome
      exact absurd hsome (by simp)
    rw [match_route_fuzzy_eq hl hfind] at hsome
    split_ifs at hsome with h1 h2
    · rcases matchFold_result (labelTokenSet label) routes ((0 : ℚ), none) with hres | ⟨r, hr, hres⟩
      · rw [hres] at hsome
        exact absurd hsome (by simp)
      · rw [hres] at hsome h2
        have hf : f = r.file := by simpa using hsome.symm
        refine ⟨r, hr, hf, ?_, ?_⟩
        · rw [divInt_half_eq] at h2
          simpa using h2
        · intro r' hr'
          have hle := matchFold_score_le (labelTokenSet label) routes
            ((0 : ℚ), none) (le_refl 0) r' hr'
          rw [hres] at hle
          simpa using hle
  · intro label routes r hnoexact hr hscore
    by_cases hl : label = ""
    · exfalso
      subst hl
      have hnil : labelTokenSet "" = [] := by decide
      rw [hnil, routeScore_of_nil_lset] at hscore
      norm_num at hscore
    have hfind := find?_none_of_no_exact hnoexact
    have hls : ¬((labelTokenSet label).isEmpty = true) := by
      intro h
      rw [List.isEmpty_iff] at h
      rw [h, routeScore_of_nil_lset] at hscore
      norm_num at hscore
    have hbest : Rat.divInt 1 2 ≤
        (routes.foldl (matchFoldStep (labelTokenSet label)) ((0 : ℚ), none)).1 := by
      rw [divInt_half_eq]
      exact le_trans hscore
        (matchFold_score_le (labelTokenSet label) routes ((0 : ℚ), none) (le_refl 0) r hr)
    rw [match_route_fuzzy_eq hl hfind, if_neg hls, if_pos hbest]
    rcases matchFold_result (labelTokenSet label) routes ((0 : ℚ), none) with hres | ⟨r', _, hres⟩
    · exfalso
      rw [hres, divInt_half_eq] at hbest
      norm_num at hbest
    · rw [hres]
      exact ⟨r'.file, rfl⟩
  · intro label routes hnoexact hall
    by_cases hl : label = ""
    · simp only [match_route]
      rw [if_pos hl]
    have hfind := find?_none_of_no_exact hnoexact
    rw [match_route_fuzzy_eq hl hfind]
    by_cases hls : (labelTokenSet label).isEmpty = true
    · rw [if_pos hls]
    rw [if_neg hls]
    have hnotle : ¬(Rat.divInt 1 2 ≤
        (routes.foldl (matchFoldStep (labelTokenSet label)) ((0 : ℚ), none)).1) := by
      rw [divInt_half_eq]
      rcases matchFold_result (labelTokenSet label) routes ((0 : ℚ), none) with hres | ⟨r, hr, hres⟩
      · rw [hres]
        norm_num
      · rw [hres]
        simpa using not_le_of_lt (hall r hr)
    rw [if_neg hnotle]

theorem C3_match_route_spec_witness :
    match_route "About us"
      (build_route_index ⟨[⟨[⟨"About Us"⟩, ⟨"Contact"⟩]⟩]⟩) =
      some "about-us.html" :=
  C3_match_route_spec.1 "About us" (build_route_index ⟨[⟨[⟨"About Us"⟩, ⟨"Contact"⟩]⟩]⟩)
    { name := "About Us", norm := "aboutus", tokens := ["about", "us"],
      file := "about-us.html" }
    (by decide) (by decide)

/-! ## C9 — image fit classes -/
theorem desired_object_cases (scale : Option String) (size screen : Option BoxWH) :
    desired_object scale size screen = "object-contain" ∨
      desired_object scale size screen = "object-cover" := by
  simp only [desired_object]
  split_ifs <;> first | exact Or.inl rfl | exact Or.inr rfl

theorem desired_fillcrop_small (sc : String) (w h sw sh : ℚ) (hsc : sc = "FILL" ∨ sc = "CROP")
    (hw : w ≠ 0) (hh : h ≠ 0) (hsw : sw ≠ 0) (hsh : sh ≠ 0)
    (h1 : qDiv w sw < 3 / 5) (h2 : qDiv h sh < 3 / 5) :
    desired_object (some sc) (some ⟨some w, some h⟩) (some ⟨some sw, some sh⟩) =
      "object-contain" := by
  have h35 : Rat.divInt 3 5 = (3 : ℚ) / 5 := by rw [Rat.divInt_eq_div]; norm_num
  have hne : ¬(some sc = some "FIT") := by rcases hsc with h | h <;> subst h <;> simp
  have hcond : (some sc = some "FILL" || some sc = some "CROP") = true := by
    rcases hsc with h | h <;> subst h <;> simp
  simp only [desired_object, hcond, if_neg hne, Option.bind_some, Option.getD_some,
    if_true, truthyQ]
  simp only [h35]
  simp [hw, hh, hsw, hsh, h1, h2]

theorem desired_fillcrop_big (sc : String) (w h sw sh : ℚ) (hsc : sc = "FILL" ∨ sc = "CROP")
    (hw : w ≠ 0) (hh : h ≠ 0) (hsw : sw ≠ 0) (hsh : sh ≠ 0)
    (hnot : ¬(qDiv w sw < 3 / 5 ∧ qDiv h sh < 3 / 5)) :
    desired_object (some sc) (some ⟨some w, some h⟩) (some ⟨some sw, some sh⟩) =
      "object-cover" := by
  have h35 : Rat.divInt 3 5 = (3 : ℚ) / 5 := by rw [Rat.divInt_eq_div]; norm_num
  have hne : ¬(some sc = some "FIT") := by rcases hsc with h | h <;> subst h <;> simp
  have hcond : (some sc = some "FILL" || some sc = some "CROP") = true := by
    rcases hsc with h | h <;> subst h <;> simp
  simp only [desired_object, hcond, if_neg hne, Option.bind_some, Option.getD_some,
    if_true, truthyQ]
  simp only [h35]
  simp only [Bool.and_eq_true, decide_eq_true_eq]
  rw [if_pos (by simp [hw, hh, hsw, hsh]), if_neg (by intro hc; exact hnot ⟨hc.1, hc.2⟩)]

theorem desired_fillcrop_unknown (sc : String) (size screen : Option BoxWH)
    (hsc : sc = "FILL" ∨ sc = "CROP")
    (hnone : screen.bind BoxWH.w = none ∨ screen.bind BoxWH.h = none ∨
      size.bind BoxWH.w = none ∨ size.bind BoxWH.h = none) :
    desired_object (some sc) size screen = "object-cover" := by
  have hne : ¬(some sc = some "FIT") := by rcases hsc with h | h <;> subst h <;> simp
  have hcond : (some sc = some "FILL" || some sc = some "CROP") = true := by
    rcases hsc with h | h <;> subst h <;> simp
  simp only [desired_object, hcond, if_neg hne, if_true]
  rw [if_neg]
  intro hcontra
  simp only [Bool.and_eq_true] at hcontra
  rcases hnone with h | h | h | h <;>
    · rw [h] at hcontra
      simp [truthyQ] at hcontra
theorem countFit_filtered (classes : List String) :
    countFit (classes.filter fun c => !fitClassSet.contains c) = 0 := by
  unfold countFit
  rw [List.filter_filter]
  have h : (classes.filter fun a => fitClassSet.contains a && !fitClassSet.contains a) = [] := by
    apply List.filter_eq_nil_iff.mpr
    intro a _
    cases fitClassSet.contains a <;> simp
  rw [h]
  rfl

theorem contains_filtered_false (classes : List String) (d : String)
    (hd : fitClassSet.contains d = true) :
    (classes.filter fun c => !fitClassSet.contains c).contains d = false := by
  by_contra h
  have hmem : d ∈ classes.filter fun c => !fitClassSet.contains c := by
    have := Bool.of_not_eq_false h
    exact List.elem_iff.mp this
  have := List.of_mem_filter hmem
  rw [hd] at this
  simp at this

theorem rounded_token_not_fit (s : String) :
    fitClassSet.contains ("rounded-[" ++ s ++ "px]") = false := by
  have hdata : ("rounded-[" ++ s ++ "px]").data =
      'r' :: ("ounded-[".data ++ s.data ++ "px]".data) := by
    rw [String.data_append, String.data_append]
    rfl
  have hne : ∀ t : String, t.data.head? = some 'o' → ¬("rounded-[" ++ s ++ "px]" = t) := by
    intro t ht heq
    rw [← heq, hdata] at ht
    simp at ht
  have h1 := hne "object-cover" rfl
  have h2 := hne "object-contain" rfl
  have h3 := hne "object-fill" rfl
  have h4 := hne "object-scale-down" rfl
  simp [fitClassSet, List.contains, h1, h2, h3, h4]

theorem countFit_replace (classes : List String) (d : String) (radius : Option ℚ)
    (hd : d = "object-contain" ∨ d = "object-cover") :
    countFit (replace_img_classes classes d radius) = 1 ∧
      d ∈ replace_img_classes classes d radius := by
  have hfit : fitClassSet.contains d = true := by
    rcases hd with h | h <;> subst h <;> decide
  have hfitMem : d ∈ fitClassSet := List.elem_iff.mp hfit
  have hcf := contains_filtered_false classes d hfit
  simp only [replace_img_classes, hcf, Bool.false_eq_true, if_false]
  set cs0 := classes.filter fun c => !fitClassSet.contains c with hcs0
  have hcount1 : countFit (cs0 ++ [d]) = 1 := by
    unfold countFit
    rw [List.filter_append, List.length_append]
    have h0 : (cs0.filter fun c => fitClassSet.contains c).length = 0 :=
      countFit_filtered classes
    rw [h0]
    simp [List.filter, hfitMem]
  have hmem1 : d ∈ cs0 ++ [d] := List.mem_append_right _ (List.mem_singleton.mpr rfl)
  cases radius with
  | none => exact ⟨hcount1, hmem1⟩
  | some r =>
    split_ifs with hany
    · exact ⟨hcount1, hmem1⟩
    · constructor
      · unfold countFit
        rw [List.filter_append, List.length_append]
        have hrMem : ("rounded-[" ++ qDecStr r ++ "px]" : String) ∉ fitClassSet := by
          intro hm
          have hcontains := rounded_token_not_fit (qDecStr r)
          have htrue : fitClassSet.contains ("rounded-[" ++ qDecStr r ++ "px]") = true :=
            List.elem_iff.mpr hm
          rw [htrue] at hcontains
          simp at hcontains
        have hr : (([("rounded-[" ++ qDecStr r ++ "px]" : String)]).filter
            (fun c => fitClassSet.contains c)) = [] := by
          simp [List.filter, hrMem]
        rw [hr]
        have h2 := hcount1
        unfold countFit at h2
        rw [h2]
        simp
      · exact List.mem_append_left _ hmem1

/-- C9: an image with scale mode FIT gets the contain class; FILL/CROP get
the cropping class unless the image's recorded width and height are both
under 60% of the screen's, in which case contain is substituted (with
unknown or zero dimensions falling to the cropping class); and the class
rewriting removes conflicting fit classes so that exactly one fit class
results, namely the desired one. -/
theorem C9_image_fit_classes :
    (∀ size screen : Option BoxWH,
      desired_object (some "FIT") size screen = "object-contain") ∧
    (∀ (sc : String) (w h sw sh : ℚ), sc = "FILL" ∨ sc = "CROP" →
      w ≠ 0 → h ≠ 0 → sw ≠ 0 → sh ≠ 0 →
      qDiv w sw < 3 / 5 → qDiv h sh < 3 / 5 →
      desired_object (some sc) (some ⟨some w, some h⟩) (some ⟨some sw, some sh⟩) =
        "object-contain") ∧
    (∀ (sc : String) (w h sw sh : ℚ), sc = "FILL" ∨ sc = "CROP" →
      w ≠ 0 → h ≠ 0 → sw ≠ 0 → sh ≠ 0 →
      ¬(qDiv w sw < 3 / 5 ∧ qDiv h sh < 3 / 5) →
      desired_object (some sc) (some ⟨some w, some h⟩) (some ⟨some sw, some sh⟩) =
        "object-cover") ∧
    (∀ (sc : String) (size screen : Option BoxWH), sc = "FILL" ∨ sc = "CROP" →
      (screen.bind BoxWH.w = none ∨ screen.bind BoxWH.h = none ∨
        size.bind BoxWH.w = none ∨ size.bind BoxWH.h = none) →
      desired_object (some sc) size screen = "object-cover") ∧
    (∀ (classes : List String) (scale : Option String) (size screen : Option BoxWH)
        (radius : Option ℚ),
      countFit (replace_img_classes classes (desired_object scale size screen) radius) = 1 ∧
        desired_object scale size screen ∈
          replace_img_classes classes (desired_object scale size screen) radius) :=
  ⟨fun _ _ => rfl, desired_fillcrop_small, desired_fillcrop_big, desired_fillcrop_unknown,
   fun classes scale size screen radius =>
     countFit_replace classes _ radius (desired_object_cases scale size screen)⟩

theorem C9_image_fit_classes_witness :
    desired_object (some "FILL") (some ⟨some 100, some 50⟩) (some ⟨some 1000, some 800⟩) =
      "object-contain" :=
  C9_image_fit_classes.2.1 "FILL" 100 50 1000 800 (Or.inl rfl)
    (by norm_num) (by norm_num) (by norm_num) (by norm_num)
    (by rw [show qDiv (100 : ℚ) 1000 = Rat.divInt (100 * 1) 1000 from rfl, Rat.divInt_eq_div]
        norm_num)
    (by rw [show qDiv (50 : ℚ) 800 = Rat.divInt (50 * 1) 800 from rfl, Rat.divInt_eq_div]
        norm_num)

/-! ## C6 — overflow-hidden relaxation -/

/-- C6 counterexample: the claim quantifies over every div whose class
list carries `overflow-hidden` and whose 8000-character lookahead window
contains an absolutely positioned negative-offset element.  The scanner,
however, consumes the whole window of a match, so a second qualifying div
inside the first div's window is never processed: below, the inner div
keeps `overflow-hidden` although its own window (the `<p>` element) is
absolutely positioned with the negative offset `left-[-5px]` and no
preserve-clipping flag is present. -/
theorem C6_counterexample :
    (⟨scanRw relaxStep none
        ("<div class=\"overflow-hidden a\"><div class=\"overflow-hidden b\"><p class=\"absolute left-[-5px]\">x</p>").data⟩ : String) =
      "<div class=\"a\"><div class=\"overflow-hidden b\"><p class=\"absolute left-[-5px]\">x</p>" ∧
    hasWordSub "absolute".data ("<p class=\"absolute left-[-5px]\">x</p>").data = true ∧
    negOffsetIn ("<p class=\"absolute left-[-5px]\">x</p>").data = true ∧
    containsSub "<div class=\"overflow-hidden b\">".data
      (scanRw relaxStep none
        ("<div class=\"overflow-hidden a\"><div class=\"overflow-hidden b\"><p class=\"absolute left-[-5px]\">x</p>").data) = true := by
  refine ⟨by decide, by decide, by decide, by decide⟩

/-- C6 amended: divs are scanned left to right and every match consumes
its 8000-character lookahead window, so a qualifying div inside an earlier
match's window is left untouched.  For a processed match the per-match
replacement behaves as claimed: a class list carrying a preserve-clipping
flag is left unchanged; a window without an absolutely positioned
negative-offset element leaves the class list unchanged; and on the spec's
single-container examples the clipping class is removed resp. kept. -/
theorem C6_relax_overflow_amended :
    (∀ classes tail : List Char,
      containsSub "clip-true".data classes = true ∨
        containsSub "clip-content".data classes = true →
      relaxClasses classes tail = classes) ∧
    (∀ classes tail : List Char,
      ¬(hasWordSub "absolute".data tail = true ∧ negOffsetIn tail = true) →
      relaxClasses classes tail = classes) ∧
    sanitize_html_output
        "<div class=\"overflow-hidden a\"><p class=\"absolute left-[-10px]\">x</p></div>" =
      "<div class=\"a\"><p class=\"absolute left-[-10px]\">x</p></div>" ∧
    sanitize_html_output
        "<div class=\"overflow-hidden clip-true a\"><p class=\"absolute left-[-10px]\">x</p></div>" =
      "<div class=\"overflow-hidden clip-true a\"><p class=\"absolute left-[-10px]\">x</p></div>" := by
  refine ⟨?_, ?_, by decide, by decide⟩
  · intro classes tail h
    unfold relaxClasses
    rw [if_pos]
    rcases h with h | h <;> simp [h]
  · intro classes tail h
    unfold relaxClasses
    split_ifs with h1 h2
    · rfl
    · simp only [Bool.and_eq_true] at h2
      exact absurd h2 h
    · rfl

theorem C6_relax_overflow_amended_witness :
    relaxClasses ("overflow-hidden clip-true a").data
        ("<p class=\"absolute left-[-10px]\">x</p>").data =
      ("overflow-hidden clip-true a").data :=
  C6_relax_overflow_amended.1 _ _ (Or.inl (by decide))

/-! ## C5 — color backfill -/

theorem colorRulesAux_mem_acc (defined : List String) :
    ∀ (ms : List (String × String)) (seen acc : List String) (r : String),
      r ∈ acc → r ∈ colorRulesAux defined ms seen acc := by
  intro ms
  induction ms with
  | nil =>
    intro seen acc r hr
    simpa [colorRulesAux] using List.mem_reverse.mpr hr
  | cons kh ms ih =>
    obtain ⟨k, h⟩ := kh
    intro seen acc r hr
    simp only [colorRulesAux]
    split_ifs with hskip
    · exact ih _ _ _ hr
    · exact ih _ _ _ (List.mem_cons_of_mem _ hr)

theorem colorRulesAux_sound (defined : List String) :
    ∀ (ms : List (String × String)) (seen acc : List String) (r : String),
      r ∈ colorRulesAux defined ms seen acc →
      r ∈ acc ∨ ∃ k h, (k, h) ∈ ms ∧
        defined.contains (mkColorClassName k h) = false ∧ r = mkColorRule k h := by
  intro ms
  induction ms with
  | nil =>
    intro seen acc r hr
    simp only [colorRulesAux] at hr
    exact Or.inl (List.mem_reverse.mp hr)
  | cons kh ms ih =>
    obtain ⟨k, h⟩ := kh
    intro seen acc r hr
    simp only [colorRulesAux] at hr
    split_ifs at hr with hskip
    · rcases ih _ _ _ hr with h1 | ⟨k', h', hmem, hnd, heq⟩
      · exact Or.inl h1
      · exact Or.inr ⟨k', h', List.mem_cons_of_mem _ hmem, hnd, heq⟩
    · rcases ih _ _ _ hr with h1 | ⟨k', h', hmem, hnd, heq⟩
      · rcases List.mem_cons.mp h1 with heq | h1'
        · refine Or.inr ⟨k, h, List.mem_cons_self _ _, ?_, heq⟩
          simp only [Bool.or_eq_true, not_or, Bool.not_eq_true] at hskip
          exact hskip.1
        · exact Or.inl h1'
      · exact Or.inr ⟨k', h', List.mem_cons_of_mem _ hmem, hnd, heq⟩

theorem colorRulesAux_complete (defined : List String) :
    ∀ (ms : List (String × String)) (seen acc : List String) (k h : String),
      (k, h) ∈ ms → defined.contains (mkColorClassName k h) = false →
      (seen.contains (mkColorClassName k h) = true →
        ∃ r ∈ acc, ∃ k' h', r = mkColorRule k' h' ∧
          mkColorClassName k' h' = mkColorClassName k h) →
      ∃ r ∈ colorRulesAux defined ms seen acc, ∃ k' h', r = mkColorRule k' h' ∧
        mkColorClassName k' h' = mkColorClassName k h := by
  intro ms
  induction ms with
  | nil => intro seen acc k h hmem; simp at hmem
  | cons kh ms ih =>
    obtain ⟨k0, h0⟩ := kh
    intro seen acc k h hmem hnd hseen
    simp only [colorRulesAux]
    rcases List.mem_cons.mp hmem with heq | hmem'
    · have hk : k = k0 := congrArg Prod.fst heq
      have hh : h = h0 := congrArg Prod.snd heq
      split_ifs with hskip
      · rw [← hk, ← hh, hnd] at hskip
        simp only [Bool.false_or] at hskip
        rcases hseen hskip with ⟨r, hr, k', h', hre, hcn⟩
        exact ⟨r, colorRulesAux_mem_acc defined _ _ _ _ hr, k', h', hre, hcn⟩
      · exact ⟨mkColorRule k0 h0,
          colorRulesAux_mem_acc defined _ _ _ _ (List.mem_cons_self _ _),
          k0, h0, rfl, by rw [← hk, ← hh]⟩
    · split_ifs with hskip
      · exact ih _ _ _ _ hmem' hnd hseen
      · refine ih _ _ _ _ hmem' hnd ?_
        intro hs
        rcases List.mem_cons.mp (List.elem_iff.mp hs) with hcn | hs'
        · exact ⟨mkColorRule k0 h0, List.mem_cons_self _ _, k0, h0, rfl, hcn.symm⟩
        · rcases hseen (List.elem_iff.mpr hs') with ⟨r, hr, k', h', hre, hcn⟩
          exact ⟨r, List.mem_cons_of_mem _ hr, k', h', hre, hcn⟩

/-- C5: a 3-digit hex payload is doubled to six digits, a 6-digit payload
decodes to `#rrggbb`, an 8-digit payload decodes to `rgba` with the
trailing byte as fractional alpha; each kind maps to its CSS property; the
rules builder emits a rule exactly for the referenced classes that are
neither defined nor already seen (soundness and existence); the undefined
`bg-custom-ff0000`, referenced twice, receives exactly one appended
`background-color: #ff0000;` rule, and a document whose custom color is
already defined is returned byte-for-byte unchanged. -/
theorem C5_color_backfill :
    hex_to_color "f00" = "#ff0000" ∧
    hex_to_color "ff0000" = "#ff0000" ∧
    hex_to_color "ff000080" = "rgba(255, 0, 0, 0.502)" ∧
    (∀ l : List Char, l.length = 6 →
      hex_to_color ⟨l⟩ = "#" ++ (⟨l.map Char.toLower⟩ : String)) ∧
    (∀ a b c : Char, hex_to_color ⟨[a, b, c]⟩ =
      "#" ++ (⟨[a.toLower, a.toLower, b.toLower, b.toLower, c.toLower, c.toLower]⟩ : String)) ∧
    (colorProp "text" = "color" ∧ colorProp "bg" = "background-color" ∧
      colorProp "border" = "border-color") ∧
    (∀ (defined : List String) (ms : List (String × String)) (r : String),
      r ∈ colorRules defined ms →
      ∃ k h, (k, h) ∈ ms ∧ defined.contains (mkColorClassName k h) = false ∧
        r = mkColorRule k h) ∧
    (∀ (defined : List String) (ms : List (String × String)) (k h : String),
      (k, h) ∈ ms → defined.contains (mkColorClassName k h) = false →
      ∃ r ∈ colorRules defined ms, ∃ k' h', r = mkColorRule k' h' ∧
        mkColorClassName k' h' = mkColorClassName k h) ∧
    ensure_missing_color_utilities
        "<p class=\"bg-custom-ff0000\">x</p><i class=\"bg-custom-ff0000\"></i>" =
      "<p class=\"bg-custom-ff0000\">x</p><i class=\"bg-custom-ff0000\"></i>\n<style type=\"text/tailwindcss\">\n@layer utilities \x7b\n  .bg-custom-ff0000 \x7b background-color: #ff0000; \x7d\n\x7d\n</style>" ∧
    countSubOcc ".bg-custom-ff0000 \x7b".data
      ("<p class=\"bg-custom-ff0000\">x</p><i class=\"bg-custom-ff0000\"></i>\n<style type=\"text/tailwindcss\">\n@layer utilities \x7b\n  .bg-custom-ff0000 \x7b background-color: #ff0000; \x7d\n\x7d\n</style>").data = 1 ∧
    ensure_missing_color_utilities
        "<style type=\"text/tailwindcss\">.bg-custom-ff0000 \x7b background-color: #ff0000; \x7d</style><p class=\"bg-custom-ff0000\">x</p>" =
      "<style type=\"text/tailwindcss\">.bg-custom-ff0000 \x7b background-color: #ff0000; \x7d</style><p class=\"bg-custom-ff0000\">x</p>" := by
  refine ⟨by decide, by decide, by decide, ?_, ?_, by decide, ?_, ?_, by decide, by decide,
    by decide⟩
  · intro l hlen
    simp [hex_to_color, List.length_map, hlen]
  · intro a b c
    rfl
  · intro defined ms r hr
    rcases colorRulesAux_sound defined ms [] [] r hr with h | h
    · simp at h
    · exact h
  · intro defined ms k h hmem hnd
    exact colorRulesAux_complete defined ms [] [] k h hmem hnd (by intro hs; simp at hs)

theorem C5_color_backfill_witness :
    hex_to_color ⟨['F', '0', '0', 'A', 'B', 'C']⟩ =
      "#" ++ (⟨['F'.toLower, '0'.toLower, '0'.toLower, 'A'.toLower,
        'B'.toLower, 'C'.toLower]⟩ : String) ∧
    (∃ r ∈ colorRules [] [("bg", "ff0000")], ∃ k' h', r = mkColorRule k' h' ∧
      mkColorClassName k' h' = mkColorClassName "bg" "ff0000") :=
  ⟨C5_color_backfill.2.2.2.1 ['F', '0', '0', 'A', 'B', 'C'] (by decide),
   C5_color_backfill.2.2.2.2.2.2.2.1 [] [("bg", "ff0000")] "bg" "ff0000"
     (by decide) (by decide)⟩

/-! ## C7 — inline data-URI externalization -/

theorem contains_append_self (l : List String) (fn : String) :
    (l ++ [fn]).contains fn = true :=
  List.elem_iff.mpr (List.mem_append_right _ (List.mem_singleton.mpr rfl))

theorem write_asset_snd (store : AssetStore) (raw : List Nat) (mime urlPre : String) :
    (write_asset store raw mime urlPre).2 =
      if (store.map Prod.fst).contains (assetFilename raw mime) then store
      else store ++ [(assetFilename raw mime, raw)] := rfl

theorem write_asset_skip (store : AssetStore) (raw : List Nat) (mime urlPre : String)
    (h : (store.map Prod.fst).contains (assetFilename raw mime) = true) :
    (write_asset store raw mime urlPre).2 = store := by
  rw [write_asset_snd, if_pos h]

theorem write_asset_once (store : AssetStore) (raw : List Nat) (mime urlPre : String) :
    (write_asset (write_asset store raw mime urlPre).2 raw mime urlPre).2 =
      (write_asset store raw mime urlPre).2 := by
  rw [write_asset_snd, write_asset_snd]
  by_cases h : (store.map Prod.fst).contains (assetFilename raw mime) = true
  · rw [if_pos h, if_pos h]
  · have hc : ((store ++ [(assetFilename raw mime, raw)]).map Prod.fst).contains
        (assetFilename raw mime) = true := by
      rw [List.map_append]
      exact contains_append_self _ _
    rw [if_neg h, if_pos hc]

/-- C7: a base64 `src` payload that fails to decode leaves the original
attribute text and the asset store untouched; a payload that decodes is
rewritten to a path whose filename is the 16-hex-digit SHA-1 content hash
of the decoded bytes with an extension inferred from the lowercased media
type; the rewritten path does not depend on the store, so identical
payloads rewrite identically; an asset whose filename already exists is
not rewritten, so a second write of the same payload leaves the store
unchanged; the media-type extension table behaves as specified; and the
three concrete cases (truncated base64, a binary payload, a
percent-encoded SVG payload) evaluate as claimed. -/
theorem C7_data_uri_assets :
    (∀ (store : AssetStore) (urlPre mime data orig : String),
      base64Decode data.data = none →
      save_data_uri store urlPre mime data orig = (orig, store)) ∧
    (∀ (store : AssetStore) (urlPre mime data orig : String) (raw : List Nat),
      base64Decode data.data = some raw →
      (save_data_uri store urlPre mime data orig).1 =
        "src=\"" ++ urlPre ++ "/" ++
          assetFilename raw ⟨mime.data.map Char.toLower⟩ ++ "\"") ∧
    (∀ (s1 s2 : AssetStore) (raw : List Nat) (mime urlPre : String),
      (write_asset s1 raw mime urlPre).1 = (write_asset s2 raw mime urlPre).1) ∧
    (∀ (store : AssetStore) (raw : List Nat) (mime urlPre : String),
      (store.map Prod.fst).contains (assetFilename raw mime) = true →
      (write_asset store raw mime urlPre).2 = store) ∧
    (∀ (store : AssetStore) (raw : List Nat) (mime urlPre : String),
      (write_asset (write_asset store raw mime urlPre).2 raw mime urlPre).2 =
        (write_asset store raw mime urlPre).2) ∧
    (extFor "image/png" = "png" ∧ extFor "image/svg+xml" = "svg" ∧
      extFor "image/jpeg" = "jpg" ∧ extFor "image/webp" = "webp" ∧
      extFor "text/plain" = "bin") ∧
    base64Decode "abc".data = none ∧
    save_data_uri [] "assets" "image/PNG" "aGk=" "data:orig" =
      ("src=\"assets/inline-c22b5f9178342609.png\"",
        [("inline-c22b5f9178342609.png", [104, 105])]) ∧
    save_svg_text_uri [] "assets" "%3Csvg%3E" =
      ("src=\"assets/inline-624e73b2bc19244a.svg\"",
        [("inline-624e73b2bc19244a.svg", [60, 115, 118, 103, 62])]) := by
  refine ⟨?_, ?_, ?_, ?_, ?_, by decide, by decide, by decide, by decide⟩
  · intro store urlPre mime data orig h
    simp [save_data_uri, h]
  · intro store urlPre mime data orig raw h
    simp [save_data_uri, h, write_asset, String.append_assoc]
  · intro s1 s2 raw mime urlPre
    simp [write_asset]
  · exact write_asset_skip
  · exact write_asset_once

theorem C7_data_uri_assets_witness :
    save_data_uri [] "assets" "image/png" "abc" "data:keep" = ("data:keep", []) ∧
    (save_data_uri [] "a" "Xy" "aGk=" "o").1 =
      "src=\"" ++ "a" ++ "/" ++
        assetFilename [104, 105] ⟨"Xy".data.map Char.toLower⟩ ++ "\"" ∧
    (write_asset [("inline-c22b5f9178342609.png", [104, 105])]
        [104, 105] "image/png" "assets").2 =
      [("inline-c22b5f9178342609.png", [104, 105])] :=
  ⟨C7_data_uri_assets.1 [] "assets" "image/png" "abc" "data:keep" (by decide),
   C7_data_uri_assets.2.1 [] "a" "Xy" "aGk=" "o" [104, 105] (by decide),
   C7_data_uri_assets.2.2.2.1 [("inline-c22b5f9178342609.png", [104, 105])]
     [104, 105] "image/png" "assets" (by decide)⟩

/-! ## C8 — terminal failure modes of the HTML mode -/

theorem contains_html_wrap (doc : List Char) :
    containsSubCI "<html".data
      (if containsSubCI "<html".data doc then doc
       else "<html lang=\"en\">\n".data ++ doc ++ "\n</html>".data) = true := by
  by_cases h : containsSubCI "<html".data doc = true
  · rw [if_pos h]; exact h
  · rw [if_neg h]
    exact containsSubCI_append_left _ (containsSubCI_append_left _ (by decide))

theorem contains_doctype_wrap (doc : List Char)
    (h : containsSubCI "<html".data doc = true) :
    containsSubCI "<html".data
      (if containsSubCI "<!doctype".data doc then doc
       else "<!DOCTYPE html>\n".data ++ doc) = true := by
  by_cases h2 : containsSubCI "<!doctype".data doc = true
  · rw [if_pos h2]; exact h
  · rw [if_neg h2]; exact containsSubCI_append_right _ h

theorem fragmentWrap_has_html (hasTw : Bool) (styles : List (List Char))
    (textWo : List Char) :
    containsSubCI "<html".data (fragmentWrap hasTw styles textWo) = true := by
  simp only [fragmentWrap]
  exact containsSubCI_append_left _ (containsSubCI_append_left _
    (containsSubCI_append_left _ (by decide)))

theorem ensure_html_guard (text : String)
    (h : text.data.contains '<' = false ∨ text.data.contains '>' = false) :
    ensure_html_document text = text := by
  simp only [ensure_html_document]
  by_cases he : text.data.isEmpty = true
  · rw [if_pos he]
  · rw [if_neg he]
    have hcond : (!text.data.contains '<' || !text.data.contains '>') = true := by
      rcases h with h | h <;> rw [h] <;> simp
    rw [if_pos hcond]

theorem ensure_html_has_html (text : String)
    (h1 : text.data.contains '<' = true) (h2 : text.data.contains '>' = true) :
    containsSubCI "<html".data (ensure_html_document text).data = true := by
  have he : text.data.isEmpty = false := by
    cases hl : text.data with
    | nil => rw [hl] at h1; exact absurd h1 (by decide)
    | cons a l => rfl
  simp only [ensure_html_document]
  rw [if_neg (by simp [he] : ¬(text.data.isEmpty = true)),
    if_neg (by rw [h1, h2]; decide :
      ¬((!text.data.contains '<' || !text.data.contains '>') = true))]
  by_cases h3 : containsSubCI "<html".data text.data = true
  · rw [if_pos h3]; exact h3
  · rw [if_neg h3]
    by_cases h4 : (containsSubCI "<head".data text.data ||
        containsSubCI "<body".data text.data) = true
    · rw [if_pos h4]
      exact contains_doctype_wrap _ (contains_html_wrap _)
    · rw [if_neg h4]
      exact fragmentWrap_has_html _ _ _

theorem wrapped_no_html_iff (text : String) :
    containsSubCI "<html".data (wrapped_model_text text).data = false ↔
      (containsSubCI "<html".data text.data = false ∧
        (text.data.contains '<' = false ∨ text.data.contains '>' = false)) := by
  unfold wrapped_model_text
  by_cases hh : containsSubCI "<html".data text.data = true
  · rw [if_pos hh]
    simp [hh]
  · rw [if_neg hh]
    have hh' : containsSubCI "<html".data text.data = false := by
      cases hx : containsSubCI "<html".data text.data
      · rfl
      · exact absurd hx hh
    constructor
    · intro h
      refine ⟨hh', ?_⟩
      by_contra hcon
      push_neg at hcon
      obtain ⟨ha, hb⟩ := hcon
      have h1 : text.data.contains '<' = true := by
        cases hx : text.data.contains '<'
        · exact absurd hx ha
        · rfl
      have h2 : text.data.contains '>' = true := by
        cases hx : text.data.contains '>'
        · exact absurd hx hb
        · rfl
      have hfull := ensure_html_has_html text h1 h2
      rw [hfull] at h
      exact Bool.noConfusion h
    · rintro ⟨-, hor⟩
      rw [ensure_html_guard text hor]
      exact hh'

/-- C8 counterexample: the input `<html>hello` carries recognizable markup
(a `<`, a `>`, even an `<html` tag), yet the engine raises the second
terminal failure — "AI output truncated before `</html>`" — rather than
completing, so "no markup found" is not the only terminal failure. -/
theorem C8_counterexample :
    "<html>hello".data.contains '<' = true ∧
    "<html>hello".data.contains '>' = true ∧
    containsSubCI "<html".data "<html>hello".data = true ∧
    generate_html_outcome "<html>hello" = GenOutcome.truncatedError ∧
    generate_html_outcome "<html>hello" ≠ GenOutcome.noHtmlError ∧
    ∀ d : String, generate_html_outcome "<html>hello" ≠ GenOutcome.completed d := by
  have he : generate_html_outcome "<html>hello" = GenOutcome.truncatedError := by decide
  exact ⟨by decide, by decide, by decide, he,
    by rw [he]; intro h; exact GenOutcome.noConfusion h,
    fun d => by rw [he]; intro h; exact GenOutcome.noConfusion h⟩

/-- C8 (amended): the HTML mode has exactly two terminal failures, fully
characterized on the wrapped model text. "No markup found" is raised
exactly when the raw text has no `<html` marker and is missing `<` or `>`
(so the document-completion pass leaves it alone); "output truncated" is
raised exactly when the wrapped text has an `<html` marker but no
`</html>`; in every remaining case the pipeline completes and returns a
document. -/
theorem C8_failure_modes (text : String) :
    (generate_html_outcome text = GenOutcome.noHtmlError ↔
      (containsSubCI "<html".data text.data = false ∧
        (text.data.contains '<' = false ∨ text.data.contains '>' = false))) ∧
    (generate_html_outcome text = GenOutcome.truncatedError ↔
      (containsSubCI "<html".data (wrapped_model_text text).data = true ∧
        containsSubCI "</html>".data (wrapped_model_text text).data = false)) ∧
    ((∃ d, generate_html_outcome text = GenOutcome.completed d) ↔
      (containsSubCI "<html".data (wrapped_model_text text).data = true ∧
        containsSubCI "</html>".data (wrapped_model_text text).data = true)) := by
  refine ⟨?_, ?_, ?_⟩
  · rw [← wrapped_no_html_iff text]
    simp only [generate_html_outcome]
    cases hx : containsSubCI "<html".data (wrapped_model_text text).data
    · rw [if_pos (show (!false) = true from rfl)]
      exact iff_of_true rfl rfl
    · rw [if_neg (fun h => Bool.noConfusion h)]
      constructor
      · intro h
        split at h <;> exact GenOutcome.noConfusion h
      · intro h
        exact Bool.noConfusion h
  · simp only [generate_html_outcome]
    cases hx : containsSubCI "<html".data (wrapped_model_text text).data
    · rw [if_pos (show (!false) = true from rfl)]
      constructor
      · intro h; exact GenOutcome.noConfusion h
      · rintro ⟨h, -⟩; exact Bool.noConfusion h
    · rw [if_neg (fun h => Bool.noConfusion h)]
      cases hy : containsSubCI "</html>".data (wrapped_model_text text).data
      · rw [if_neg (fun h => Bool.noConfusion h)]
        exact iff_of_true rfl ⟨rfl, rfl⟩
      · rw [if_pos (show true = true from rfl)]
        constructor
        · intro h; exact GenOutcome.noConfusion h
        · rintro ⟨-, h⟩; exact Bool.noConfusion h
  · simp only [generate_html_outcome]
    cases hx : containsSubCI "<html".data (wrapped_model_text text).data
    · rw [if_pos (show (!false) = true from rfl)]
      constructor
      · rintro ⟨d, h⟩; exact GenOutcome.noConfusion h
      · rintro ⟨h, -⟩; exact Bool.noConfusion h
    · rw [if_neg (fun h => Bool.noConfusion h)]
      cases hy : containsSubCI "</html>".data (wrapped_model_text text).data
      · rw [if_neg (fun h => Bool.noConfusion h)]
        constructor
        · rintro ⟨d, h⟩; exact GenOutcome.noConfusion h
        · rintro ⟨-, h⟩; exact Bool.noConfusion h
      · rw [if_pos (show true = true from rfl)]
        exact iff_of_true ⟨pipelineEmpty (wrapped_model_text text), rfl⟩ ⟨rfl, rfl⟩

theorem C8_failure_modes_witness :
    generate_html_outcome "plain prose, no tags" = GenOutcome.noHtmlError ∧
    (∃ d, generate_html_outcome "<html></html>" = GenOutcome.completed d) :=
  ⟨(C8_failure_modes "plain prose, no tags").1.mpr ⟨by decide, Or.inl (by decide)⟩,
   (C8_failure_modes "<html></html>").2.2.mpr ⟨by decide, by decide⟩⟩

end FigmaToCode
